import Mathlib

/-!
Verification of the session/authentication core, event bus, artifact cache and
credential store of the Smart-AI-Buddy mobile client.

Each section embeds one component of the source tree:
* `Store` — a model of the `AsyncStorage` generic persistent key/value store;
* `toolsCache` — `src/lib/toolsCache.ts` (artifact cache);
* secure-storage — the `getItem`/`setItem`/`deleteItem` trio with the
  secure-store-to-generic-store fallback;
* the session coordinator (`src/providers/AuthProvider.tsx`): the sequential
  authenticated gateway `authFetch`, the token refresh routine, `signOut`,
  `setTokens`, the bootstrap effect, and an interleaving model of the
  single-flight refresh;
* the event bus (`on`/`off`/`emit`);
* the note-deletion flow of `src/app/(tabs)/notes.tsx`.
-/

open scoped List

namespace SmartAiBuddy

/-! ## Generic persistent key/value store (AsyncStorage model)

A store is an association list from string keys to string values; `getItem`
returns the first binding, `setItem` overwrites, `removeItem` deletes.  These
model the `AsyncStorage.getItem` / `setItem` / `removeItem` / `multiRemove`
calls of the source. -/

abbrev Store := List (String × String)

def Store.getItem (s : Store) (k : String) : Option String :=
  (s.find? (fun p => p.1 == k)).map (·.2)

def Store.setItem (s : Store) (k v : String) : Store :=
  (k, v) :: s.filter (fun p => p.1 != k)

def Store.removeItem (s : Store) (k : String) : Store :=
  s.filter (fun p => p.1 != k)

theorem Store.getItem_cons_ne (p : String × String) (t : Store) (k : String)
    (h : p.1 ≠ k) : Store.getItem (p :: t) k = Store.getItem t k := by
  unfold Store.getItem
  rw [List.find?_cons_of_neg _ (by simpa using h)]

theorem Store.filter_getItem (s : Store) (q : String × String → Bool) (k : String)
    (hq : ∀ p : String × String, p.1 = k → q p = false) :
    Store.getItem (s.filter q) k = none := by
  induction s with
  | nil => rfl
  | cons p t ih =>
    by_cases hp : p.1 = k
    · rw [List.filter_cons_of_neg (by simp [hq p hp])]; exact ih
    · cases hqp : q p with
      | false => rw [List.filter_cons_of_neg (by simp [hqp])]; exact ih
      | true =>
        rw [List.filter_cons_of_pos (by simp [hqp]), Store.getItem_cons_ne _ _ _ hp]
        exact ih

theorem Store.filter_getItem_ne (s : Store) (q : String × String → Bool) (k : String)
    (hq : ∀ p : String × String, p.1 = k → q p = true) :
    Store.getItem (s.filter q) k = Store.getItem s k := by
  induction s with
  | nil => rfl
  | cons p t ih =>
    by_cases hp : p.1 = k
    · rw [List.filter_cons_of_pos (by simp [hq p hp])]
      unfold Store.getItem
      rw [List.find?_cons_of_pos _ (by simpa using hp),
        List.find?_cons_of_pos _ (by simpa using hp)]
    · cases hqp : q p with
      | false =>
        rw [List.filter_cons_of_neg (by simp [hqp]), Store.getItem_cons_ne _ _ _ hp]
        exact ih
      | true =>
        rw [List.filter_cons_of_pos (by simp [hqp]), Store.getItem_cons_ne _ _ _ hp,
          Store.getItem_cons_ne _ _ _ hp]
        exact ih

theorem Store.getItem_setItem (s : Store) (k v : String) :
    (s.setItem k v).getItem k = some v := by
  unfold Store.setItem Store.getItem
  rw [List.find?_cons_of_pos _ (by simp)]
  rfl

theorem Store.getItem_setItem_ne (s : Store) (k k' v : String) (h : k ≠ k') :
    (s.setItem k v).getItem k' = s.getItem k' := by
  unfold Store.setItem
  rw [Store.getItem_cons_ne _ _ _ h]
  exact Store.filter_getItem_ne s _ k' (fun p hp => by simp [hp, Ne.symm h])

theorem Store.getItem_removeItem (s : Store) (k : String) :
    (s.removeItem k).getItem k = none :=
  Store.filter_getItem s _ k (fun p hp => by simp [hp])

theorem Store.getItem_removeItem_ne (s : Store) (k k' : String) (h : k ≠ k') :
    (s.removeItem k).getItem k' = s.getItem k' :=
  Store.filter_getItem_ne s _ k' (fun p hp => by simp [hp, Ne.symm h])

theorem Store.removeItem_removeItem (s : Store) (k : String) :
    (s.removeItem k).removeItem k = s.removeItem k := by
  unfold Store.removeItem
  rw [List.filter_filter]
  simp

theorem Store.setItem_setItem (s : Store) (k v : String) :
    (s.setItem k v).setItem k v = s.setItem k v := by
  unfold Store.setItem
  rw [List.filter_cons_of_neg (by simp), List.filter_filter]
  simp

theorem Store.removeItem_absent (s : Store) (k : String) (h : s.getItem k = none) :
    s.removeItem k = s := by
  induction s with
  | nil => rfl
  | cons p t ih =>
    by_cases hp : p.1 = k
    · unfold Store.getItem at h
      rw [List.find?_cons_of_pos _ (by simpa using hp)] at h
      cases h
    · rw [Store.getItem_cons_ne _ _ _ hp] at h
      unfold Store.removeItem at ih ⊢
      rw [List.filter_cons_of_pos (by simpa using hp), ih h]

/-! ## Artifact cache (`src/lib/toolsCache.ts`)

The cache stores `JSON.stringify`-serialized artifact lists under the keys
`tools:flashcards:<noteId>` and `tools:quiz:<noteId>`.  Serialization is the
external `JSON` collaborator: it is modelled by a `Serializer` whose `parse`
returns `none` where `JSON.parse` would throw.  `getFlashcards`/`getQuiz`
return `none` when the key is unset (`raw` is `null`), when `raw` is the empty
string (falsy in the `raw ? JSON.parse(raw) : null` conditional), and when
parsing throws (the surrounding `try/catch` returns `null`). -/

structure Serializer (V : Type) where
  stringify : V → String
  parse : String → Option V

def KEY_FC (noteId : String) : String := "tools:flashcards:" ++ noteId

def KEY_QZ (noteId : String) : String := "tools:quiz:" ++ noteId

def getFlashcards {V : Type} (J : Serializer V) (s : Store) (noteId : String) : Option V :=
  match s.getItem (KEY_FC noteId) with
  | none => none
  | some raw => if raw = "" then none else J.parse raw

def setFlashcards {V : Type} (J : Serializer V) (s : Store) (noteId : String) (cards : V) : Store :=
  s.setItem (KEY_FC noteId) (J.stringify cards)

def getQuiz {V : Type} (J : Serializer V) (s : Store) (noteId : String) : Option V :=
  match s.getItem (KEY_QZ noteId) with
  | none => none
  | some raw => if raw = "" then none else J.parse raw

def setQuiz {V : Type} (J : Serializer V) (s : Store) (noteId : String) (quiz : V) : Store :=
  s.setItem (KEY_QZ noteId) (J.stringify quiz)

def clearNoteTools (s : Store) (noteId : String) : Store :=
  (s.removeItem (KEY_FC noteId)).removeItem (KEY_QZ noteId)

/-- C7. Artifact-cache round-trip and corruption-as-miss: for either kind
(flashcards or quiz) and any resource id, `set` followed by `get` returns the
stored items; `get` on a store where the key was never set returns `none`;
and if the raw value sitting at the cache key fails to deserialize, `get`
returns `none` instead of an error.  The serializer hypotheses say that the
external JSON collaborator round-trips and never produces an empty string. -/
theorem toolsCache_roundTrip_and_corruption {V : Type} (J : Serializer V)
    (s : Store) (id : String) (items : V) (raw : String)
    (hRT : ∀ v, J.parse (J.stringify v) = some v)
    (hNE : ∀ v, J.stringify v ≠ "")
    (hCorrupt : J.parse raw = none) :
    getFlashcards J (setFlashcards J s id items) id = some items ∧
    getQuiz J (setQuiz J s id items) id = some items ∧
    getFlashcards J [] id = none ∧
    getQuiz J [] id = none ∧
    getFlashcards J (s.setItem (KEY_FC id) raw) id = none ∧
    getQuiz J (s.setItem (KEY_QZ id) raw) id = none := by
  refine ⟨?_, ?_, rfl, rfl, ?_, ?_⟩
  · unfold getFlashcards setFlashcards
    rw [Store.getItem_setItem]
    simp [hNE items, hRT items]
  · unfold getQuiz setQuiz
    rw [Store.getItem_setItem]
    simp [hNE items, hRT items]
  · unfold getFlashcards
    rw [Store.getItem_setItem]
    by_cases hraw : raw = "" <;> simp [hraw, hCorrupt]
  · unfold getQuiz
    rw [Store.getItem_setItem]
    by_cases hraw : raw = "" <;> simp [hraw, hCorrupt]

/-- Concrete instantiation of C7: a serializer over `Bool` that prefixes a
marker character, with `"zz"` as a corrupt raw value. -/
def boolSerializer : Serializer Bool :=
  { stringify := fun b => if b then "Jtrue" else "Jfalse",
    parse := fun s => if s = "Jtrue" then some true else
      if s = "Jfalse" then some false else none }

/-- Witness for C7 at a concrete store, id, items and corrupt raw value. -/
theorem toolsCache_roundTrip_and_corruption_witness :
    getFlashcards boolSerializer (setFlashcards boolSerializer [] "n1" true) "n1" = some true ∧
    getQuiz boolSerializer (setQuiz boolSerializer [] "n1" true) "n1" = some true ∧
    getFlashcards boolSerializer [] "n1" = none ∧
    getQuiz boolSerializer [] "n1" = none ∧
    getFlashcards boolSerializer (Store.setItem [] (KEY_FC "n1") "zz") "n1" = none ∧
    getQuiz boolSerializer (Store.setItem [] (KEY_QZ "n1") "zz") "n1" = none :=
  toolsCache_roundTrip_and_corruption boolSerializer [] "n1" true "zz"
    (fun v => by cases v <;> decide) (fun v => by cases v <;> decide) (by decide)

/-! ## Credential store (secure-storage layer, `getItem`/`setItem`/`deleteItem`)

On web the generic store (`AsyncStorage`) is used directly.  On native,
`getSecureStore()` may yield a usable secure backend (dynamic import succeeds,
availability check passes); each secure op may itself throw, in which case the
code falls through to the generic store inside the same call.  The model is a
total function: no combination of secure-path failures makes the operation
fail, which is exactly the fallback contract. -/

structure SecureEnv where
  web : Bool
  secureAvailable : Bool
  secureThrows : Bool
deriving DecidableEq, Repr

structure DualStore where
  secure : Store
  generic : Store
deriving DecidableEq, Repr

def getItem (env : SecureEnv) (d : DualStore) (k : String) : Option String :=
  if env.web then d.generic.getItem k
  else if env.secureAvailable then
    if env.secureThrows then d.generic.getItem k else d.secure.getItem k
  else d.generic.getItem k

def setItem (env : SecureEnv) (d : DualStore) (k v : String) : DualStore :=
  if env.web then { d with generic := d.generic.setItem k v }
  else if env.secureAvailable then
    if env.secureThrows then { d with generic := d.generic.setItem k v }
    else { d with secure := d.secure.setItem k v }
  else { d with generic := d.generic.setItem k v }

def deleteItem (env : SecureEnv) (d : DualStore) (k : String) : DualStore :=
  if env.web then { d with generic := d.generic.removeItem k }
  else if env.secureAvailable then
    if env.secureThrows then { d with generic := d.generic.removeItem k }
    else { d with secure := d.secure.removeItem k }
  else { d with generic := d.generic.removeItem k }

/-- C9. Credential-store fallback and idempotence: whenever the secure path is
unavailable on native, or the platform is web, or the secure op throws, the
generic store answers within the same call and the call succeeds (the model is
total, so no secure failure makes it fail); `set` and `delete` are idempotent;
and `delete` on a key absent from both backends is a no-op, not an error. -/
theorem secureStorage_fallback_and_idempotence (env : SecureEnv) (d : DualStore)
    (k v : String) :
    ((env.web = true ∨ env.secureAvailable = false ∨ env.secureThrows = true) →
      getItem env d k = d.generic.getItem k ∧
      setItem env d k v = { d with generic := d.generic.setItem k v } ∧
      deleteItem env d k = { d with generic := d.generic.removeItem k }) ∧
    setItem env (setItem env d k v) k v = setItem env d k v ∧
    deleteItem env (deleteItem env d k) k = deleteItem env d k ∧
    (d.secure.getItem k = none → d.generic.getItem k = none →
      deleteItem env d k = d) := by
  unfold getItem setItem deleteItem
  obtain ⟨w, avail, thr⟩ := env
  refine ⟨fun h => ?_, ?_, ?_, fun hs hg => ?_⟩
  · cases w <;> cases avail <;> cases thr <;> simp_all
  · cases w <;> cases avail <;> cases thr <;>
      simp [Store.setItem_setItem]
  · cases w <;> cases avail <;> cases thr <;>
      simp [Store.removeItem_removeItem]
  · cases w <;> cases avail <;> cases thr <;>
      simp [Store.removeItem_absent _ _ hs, Store.removeItem_absent _ _ hg]

/-- Witness for C9: on native with an available but throwing secure store, a
read is answered by the generic store; deleting an absent key changes
nothing. -/
theorem secureStorage_fallback_and_idempotence_witness :
    getItem ⟨false, true, true⟩ ⟨[("accessToken", "sec")], [("accessToken", "gen")]⟩ "accessToken" = some "gen" ∧
    deleteItem ⟨false, true, true⟩ ⟨[], []⟩ "accessToken" = ⟨[], []⟩ :=
  ⟨(((secureStorage_fallback_and_idempotence ⟨false, true, true⟩
        ⟨[("accessToken", "sec")], [("accessToken", "gen")]⟩ "accessToken" "v").1
      (Or.inr (Or.inr rfl))).1).trans (by decide),
    (secureStorage_fallback_and_idempotence ⟨false, true, true⟩ ⟨[], []⟩
        "accessToken" "v").2.2.2 (by decide) (by decide)⟩

/-! ## Session coordinator: token shadow, `setTokens` and `signOut`
(`src/providers/AuthProvider.tsx`, lines 22-45 and 182-185)

`setTokens(a, r)` assigns both in-memory cells synchronously before any
`await`, then runs one persistent op per key (`setItem` when the value is
present, `deleteItem` when it is `null`).  A persistent op may reject (e.g.
the generic store's delete fails); neither `setTokens` nor `signOut` catches
such a rejection, so it propagates and the remaining statements do not run.
`StorageOutcome` is the oracle for each persistent op. -/

structure Tokens where
  access : Option String
  refresh : Option String
deriving DecidableEq, Repr

structure User where
  id : String
  email : String
  role : String
  name : Option String
deriving DecidableEq, Repr

inductive StorageOutcome
  | ok
  | reject
deriving DecidableEq, Repr

def ACCESS_KEY : String := "accessToken"

def REFRESH_KEY : String := "refreshToken"

/-- `setTokens` (lines 36-45): returns the new in-memory pair, the persistent
store, and whether the call rejected.  A rejecting persistent op is modelled
as having no effect on the store. -/
def setTokensRun (store : Store) (a r : Option String) (o1 o2 : StorageOutcome) :
    Tokens × Store × Bool :=
  let mem : Tokens := ⟨a, r⟩
  match o1 with
  | .reject => (mem, store, true)
  | .ok =>
    let store1 := match a with
      | some v => store.setItem ACCESS_KEY v
      | none => store.removeItem ACCESS_KEY
    match o2 with
    | .reject => (mem, store1, true)
    | .ok =>
      let store2 := match r with
        | some v => store1.setItem REFRESH_KEY v
        | none => store1.removeItem REFRESH_KEY
      (mem, store2, false)

/-- `signOut` (lines 182-185): `await setTokens(null, null); setUser(null)`.
If `setTokens` rejects, `setUser(null)` never runs and `signOut` rejects. -/
def signOutRun (user : Option User) (store : Store) (o1 o2 : StorageOutcome) :
    Tokens × Option User × Store × Bool :=
  match setTokensRun store none none o1 o2 with
  | (mem, store', true) => (mem, user, store', true)
  | (mem, store', false) => (mem, none, store', false)

/-- C5, counterexample: when the persistent delete of the access key rejects,
`signOut` itself rejects and the in-memory profile is NOT cleared — refuting
"every call to signOut clears both stored credentials and the in-memory
profile and never raises, even when deleting from persistent storage
fails". -/
theorem signOut_raises_on_storage_failure :
    (signOutRun (some ⟨"u1", "u1@x.io", "USER", none⟩) [("accessToken", "a")]
        .reject .ok).2.2.2 = true ∧
    (signOutRun (some ⟨"u1", "u1@x.io", "USER", none⟩) [("accessToken", "a")]
        .reject .ok).2.1 = some ⟨"u1", "u1@x.io", "USER", none⟩ := by
  decide

/-- C5 amended: `signOut` clears the in-memory credential pair unconditionally
(the assignment precedes every `await`); when both persistent deletes succeed
it also clears the profile, removes both persisted keys and does not raise;
calling it when already signed out (no profile, keys absent) changes nothing
and does not raise; but when a persistent delete rejects, the rejection
propagates out of `signOut` and the profile is left untouched. -/
theorem signOut_clears_memory_and_is_idempotent (user : Option User)
    (store : Store) (o1 o2 : StorageOutcome) :
    (signOutRun user store o1 o2).1 = ⟨none, none⟩ ∧
    (o1 = .ok → o2 = .ok →
      signOutRun user store o1 o2 =
        (⟨none, none⟩, none, (store.removeItem ACCESS_KEY).removeItem REFRESH_KEY, false)) ∧
    (store.getItem ACCESS_KEY = none → store.getItem REFRESH_KEY = none →
      signOutRun none store .ok .ok = (⟨none, none⟩, none, store, false)) ∧
    ((o1 = .reject ∨ o2 = .reject) →
      (signOutRun user store o1 o2).2.2.2 = true ∧
      (signOutRun user store o1 o2).2.1 = user) := by
  refine ⟨?_, ?_, ?_, ?_⟩
  · cases o1 <;> cases o2 <;> rfl
  · rintro rfl rfl
    rfl
  · intro ha hr
    have hr' : (store.removeItem ACCESS_KEY).getItem REFRESH_KEY = none := by
      rw [Store.getItem_removeItem_ne _ _ _ (by decide)]
      exact hr
    show ((⟨none, none⟩ : Tokens), (none : Option User),
      (store.removeItem ACCESS_KEY).removeItem REFRESH_KEY, false) =
      ((⟨none, none⟩ : Tokens), (none : Option User), store, false)
    rw [Store.removeItem_absent _ _ hr', Store.removeItem_absent _ _ ha]
  · rintro (rfl | rfl)
    · exact ⟨by cases o2 <;> rfl, by cases o2 <;> rfl⟩
    · cases o1 <;> exact ⟨rfl, rfl⟩

/-- Witness for the amended C5 at a concrete signed-in state and at a concrete
already-signed-out state. -/
theorem signOut_clears_memory_and_is_idempotent_witness :
    signOutRun (some ⟨"u1", "u1@x.io", "USER", none⟩)
        [("accessToken", "a"), ("refreshToken", "r")] .ok .ok =
      (⟨none, none⟩, none, [], false) ∧
    signOutRun none [] .ok .ok = (⟨none, none⟩, none, [], false) :=
  ⟨((signOut_clears_memory_and_is_idempotent (some ⟨"u1", "u1@x.io", "USER", none⟩)
      [("accessToken", "a"), ("refreshToken", "r")] .ok .ok).2.1 rfl rfl).trans
      (by decide),
    (signOut_clears_memory_and_is_idempotent none [] .ok .ok).2.2.1
      (by decide) (by decide)⟩

/-! ## Event bus (`on`/`off`/`emit`, src/lib/eventBus)

Handlers are identified by naturals.  `off` does `indexOf` + `splice(i, 1)`:
remove the first occurrence, no-op when absent.  `on` pushes.  A handler's
callback may itself mutate the listener array; `beh h` lists the bus
mutations handler `h` performs when invoked.  `emit` runs
`arr.forEach(fn => fn(payload))` with the live-array semantics of
`Array.prototype.forEach`: the bound `len` is captured before the first
callback, and the element at index `k` is read from the *current* array, the
index being skipped when the array has shrunk below it. -/

inductive BusOp
  | unregister (h : Nat)
  | register (h : Nat)
deriving DecidableEq, Repr

def removeListener : List Nat → Nat → List Nat
  | [], _ => []
  | x :: xs, h => if x = h then xs else x :: removeListener xs h

def applyBusOp (l : List Nat) : BusOp → List Nat
  | .unregister h => removeListener l h
  | .register h => l ++ [h]

def invokeHandler (beh : Nat → List BusOp) (l : List Nat) (h : Nat) : List Nat :=
  (beh h).foldl applyBusOp l

def emitLoop {P : Type} (beh : Nat → List BusOp) (p : P) :
    Nat → List Nat → Nat → List Nat × List (Nat × P)
  | 0, arr, _ => (arr, [])
  | fuel + 1, arr, k =>
    if hk : k < arr.length then
      let f := arr.get ⟨k, hk⟩
      let r := emitLoop beh p fuel (invokeHandler beh arr f) (k + 1)
      (r.1, (f, p) :: r.2)
    else
      emitLoop beh p fuel arr (k + 1)

def emit {P : Type} (beh : Nat → List BusOp) (p : P) (arr : List Nat) :
    List Nat × List (Nat × P) :=
  emitLoop beh p arr.length arr 0

theorem removeListener_sublist (l : List Nat) (h : Nat) :
    removeListener l h <+ l := by
  induction l with
  | nil => exact List.Sublist.refl _
  | cons x xs ih =>
    unfold removeListener
    by_cases hx : x = h
    · rw [if_pos hx]
      exact List.sublist_cons_self x xs
    · rw [if_neg hx]
      exact ih.cons₂ x

theorem foldl_removals_sublist (ops : List BusOp)
    (hops : ∀ op ∈ ops, ∃ g, op = BusOp.unregister g) :
    ∀ l : List Nat, ops.foldl applyBusOp l <+ l := by
  induction ops with
  | nil => exact fun l => List.Sublist.refl l
  | cons op ops ih =>
    intro l
    obtain ⟨g, rfl⟩ := hops op (List.mem_cons_self _ _)
    refine (ih (fun o ho => hops o (List.mem_cons_of_mem _ ho)) _).trans ?_
    exact removeListener_sublist l g

theorem invokeHandler_sublist (beh : Nat → List BusOp) (l : List Nat) (f : Nat)
    (hrm : ∀ h op, op ∈ beh h → ∃ g, op = BusOp.unregister g) :
    invokeHandler beh l f <+ l :=
  foldl_removals_sublist (beh f) (fun op ho => hrm f op ho) l

theorem emitLoop_removalOnly {P : Type} (beh : Nat → List BusOp) (p : P)
    (hrm : ∀ h op, op ∈ beh h → ∃ g, op = BusOp.unregister g) :
    ∀ (fuel : Nat) (arr : List Nat) (k : Nat),
      (emitLoop beh p fuel arr k).2.map Prod.fst <+ arr.drop k ∧
      ∀ e ∈ (emitLoop beh p fuel arr k).2, e.2 = p := by
  intro fuel
  induction fuel with
  | zero => exact fun arr k => ⟨List.nil_sublist _, by simp [emitLoop]⟩
  | succ fuel ih =>
    intro arr k
    unfold emitLoop
    by_cases hk : k < arr.length
    · rw [dif_pos hk]
      dsimp only
      obtain ⟨ih1, ih2⟩ := ih (invokeHandler beh arr (arr.get ⟨k, hk⟩)) (k + 1)
      constructor
      · rw [List.map_cons, List.drop_eq_getElem_cons hk]
        exact List.Sublist.cons₂ _
          (ih1.trans ((invokeHandler_sublist beh arr _ hrm).drop (k + 1)))
      · intro e he
        rcases List.mem_cons.mp he with rfl | he
        · rfl
        · exact ih2 e he
    · rw [dif_neg hk]
      obtain ⟨ih1, ih2⟩ := ih arr (k + 1)
      refine ⟨ih1.trans ?_, ih2⟩
      rw [show k + 1 = 1 + k by omega, ← List.drop_drop]
      exact (List.drop_sublist 1 arr).drop k

theorem emitLoop_noMutation {P : Type} (beh : Nat → List BusOp) (p : P)
    (hid : ∀ h, beh h = []) :
    ∀ (fuel : Nat) (arr : List Nat) (k : Nat), fuel + k = arr.length →
      emitLoop beh p fuel arr k = (arr, (arr.drop k).map (fun h => (h, p))) := by
  intro fuel
  induction fuel with
  | zero =>
    intro arr k hk
    rw [emitLoop, show k = arr.length by omega, List.drop_length, List.map_nil]
  | succ fuel ih =>
    intro arr k hk
    have hklt : k < arr.length := by omega
    rw [emitLoop, dif_pos hklt]
    have hinv : invokeHandler beh arr (arr.get ⟨k, hklt⟩) = arr := by
      unfold invokeHandler
      rw [hid]
      rfl
    dsimp only
    rw [hinv, ih arr (k + 1) (by omega), List.drop_eq_getElem_cons hklt, List.map_cons,
      List.get_eq_getElem]

/-- C6, counterexample: two handlers `0, 1` are registered at the moment of
publish; handler `0` unsubscribes itself during delivery, and handler `1` —
which nobody unsubscribed — is then skipped by `forEach` because the array
shrank under it.  This refutes "each handler registered at the moment of
publish is invoked exactly once" and "unsubscribing any handler during
delivery of the current event does not affect delivery to handlers not yet
invoked in that same dispatch". -/
theorem eventBus_skips_handler_after_self_unsubscribe :
    emit (fun h => if h = 0 then [BusOp.unregister 0] else []) (42 : Nat) [0, 1] =
      ([1], [(0, 42)]) ∧
    (1, 42) ∉ (emit (fun h => if h = 0 then [BusOp.unregister 0] else [])
      (42 : Nat) [0, 1]).2 := by
  decide

/-- C6 amended: delivery is synchronous and in registration order, with the
published payload, and — provided handlers only unsubscribe (never subscribe)
during delivery and the listener array has no duplicates — each handler
registered at the moment of publish is invoked at most once (the invocation
log is a duplicate-free sublist of the registration-order listener array, so
there is no double invocation, and `emit` is a total function, so no crash);
when no handler mutates the listener array during delivery, every handler
registered at the moment of publish is invoked exactly once, in registration
order.  Unsubscribing a handler at or before the position being dispatched
does, however, skip the next not-yet-invoked handler (see the
counterexample). -/
theorem eventBus_delivery_order_and_at_most_once {P : Type}
    (beh : Nat → List BusOp) (p : P) (arr : List Nat)
    (hnd : arr.Nodup)
    (hrm : ∀ h op, op ∈ beh h → ∃ g, op = BusOp.unregister g) :
    (emit beh p arr).2.map Prod.fst <+ arr ∧
    ((emit beh p arr).2.map Prod.fst).Nodup ∧
    (∀ e ∈ (emit beh p arr).2, e.2 = p) ∧
    ((∀ h, beh h = []) → emit beh p arr = (arr, arr.map (fun h => (h, p)))) := by
  obtain ⟨h1, h2⟩ := emitLoop_removalOnly beh p hrm arr.length arr 0
  rw [List.drop_zero] at h1
  exact ⟨h1, h1.nodup hnd, h2, fun hid => by
    have := emitLoop_noMutation beh p hid arr.length arr 0 (by omega)
    rw [emit, this, List.drop_zero]⟩

/-- Witness for the amended C6: handler 3 unsubscribes the later handler 1
during dispatch; the log stays a duplicate-free, registration-ordered sublist
of the subscribers present at publish, everyone receiving the payload. -/
theorem eventBus_delivery_order_and_at_most_once_witness :
    ([3, 1, 2] : List Nat).Nodup ∧
    ((emit (fun h => if h = 3 then [BusOp.unregister 1] else []) "x" [3, 1, 2]).2.map
        Prod.fst <+ [3, 1, 2] ∧
      ((emit (fun h => if h = 3 then [BusOp.unregister 1] else []) "x" [3, 1, 2]).2.map
        Prod.fst).Nodup ∧
      (∀ e ∈ (emit (fun h => if h = 3 then [BusOp.unregister 1] else []) "x"
        [3, 1, 2]).2, e.2 = "x") ∧
      ((∀ h, (fun h => if h = 3 then [BusOp.unregister 1] else []) h = []) →
        emit (fun h => if h = 3 then [BusOp.unregister 1] else []) "x" [3, 1, 2] =
          ([3, 1, 2], [3, 1, 2].map (fun h => (h, "x"))))) :=
  ⟨by decide,
    eventBus_delivery_order_and_at_most_once _ "x" [3, 1, 2] (by decide)
      (fun h op hop => by
        by_cases h3 : h = 3
        · simp only [h3, if_pos] at hop
          rw [List.mem_singleton] at hop
          exact ⟨1, hop⟩
        · rw [if_neg h3] at hop
          cases hop)⟩

/-! ## Authenticated request gateway (`authFetch`) — sequential execution

`authFetch` (AuthProvider lines 78-106) issues the request with the current
access credential attached; a non-401 status is terminal (parsed body on
success, a request error carrying status and parsed body otherwise); a 401 on
the first attempt triggers `refreshAccessToken` and exactly one retry with the
new credential.  The network is an oracle: `r1`/`r2` are the parsed responses
to the two possible attempts and `net` the refresh endpoint's response.
`refreshAccessTokenSeq` is the straight-line (single-caller) execution of
`refreshAccessToken` (lines 48-76); its interleaved execution is modelled
separately below. -/

structure HttpResp (B : Type) where
  status : Nat
  body : B
deriving DecidableEq, Repr

/-- `res.ok` of the fetch API: status in [200, 300). -/
def HttpResp.isOk {B : Type} (r : HttpResp B) : Bool :=
  decide (200 ≤ r.status) && decide (r.status < 300)

structure RefreshResp where
  status : Nat
  accessToken : Option String
deriving DecidableEq, Repr

def RefreshResp.isOk (r : RefreshResp) : Bool :=
  decide (200 ≤ r.status) && decide (r.status < 300)

inductive RefreshFailure
  | noRefreshToken
  | unauthorized
deriving DecidableEq, Repr

structure RefreshRun where
  tokens : Tokens
  result : Except RefreshFailure String
  requests : Nat
deriving Repr

def refreshAccessTokenSeq (tk : Tokens) (net : RefreshResp) : RefreshRun :=
  match tk.refresh with
  | none => ⟨tk, .error .noRefreshToken, 0⟩
  | some rt =>
    match net.accessToken, net.isOk with
    | some t, true => ⟨⟨some t, some rt⟩, .ok t, 1⟩
    | _, _ => ⟨⟨none, none⟩, .error .unauthorized, 1⟩

inductive GatewayError (B : Type)
  | requestFailed (status : Nat) (json : B)
  | unauthorized (json : B)
  | refreshUnauthorized
  | noRefreshToken
deriving DecidableEq, Repr

structure GatewayRun (B : Type) where
  tokens : Tokens
  result : Except (GatewayError B) B
  attempts : List (Option String)
  refreshCalls : Nat
  refreshRequests : Nat
deriving Repr

def authFetchSeq {B : Type} (tk : Tokens) (retry : Bool) (r1 : HttpResp B)
    (net : RefreshResp) (r2 : HttpResp B) : GatewayRun B :=
  if r1.status ≠ 401 then
    ⟨tk, if r1.isOk then .ok r1.body else .error (.requestFailed r1.status r1.body),
      [tk.access], 0, 0⟩
  else if retry = false then
    ⟨tk, .error (.unauthorized r1.body), [tk.access], 0, 0⟩
  else
    let rr := refreshAccessTokenSeq tk net
    match rr.result with
    | .error .noRefreshToken => ⟨rr.tokens, .error .noRefreshToken, [tk.access], 1, rr.requests⟩
    | .error .unauthorized => ⟨rr.tokens, .error .refreshUnauthorized, [tk.access], 1, rr.requests⟩
    | .ok t => ⟨rr.tokens,
        if r2.isOk then .ok r2.body else .error (.requestFailed r2.status r2.body),
        [tk.access, some t], 1, rr.requests⟩

/-- C2. Retry-once gateway policy: a gateway call issues at most two requests;
a non-401 first status returns the parsed body on success or raises one
request error carrying status and body, with no refresh and no retry; a 401
first status invokes the refresh exactly once and (on refresh success) retries
exactly once with the new credential, failing with exactly one error when the
retry fails; when the refresh itself fails the call fails with exactly one
error and no second request is issued. -/
theorem authFetch_retry_once {B : Type} (tk : Tokens) (r1 : HttpResp B)
    (net : RefreshResp) (r2 : HttpResp B) :
    (authFetchSeq tk true r1 net r2).attempts.length ≤ 2 ∧
    (r1.status ≠ 401 →
      authFetchSeq tk true r1 net r2 =
        ⟨tk, if r1.isOk then .ok r1.body else .error (.requestFailed r1.status r1.body),
          [tk.access], 0, 0⟩) ∧
    (r1.status = 401 →
      (authFetchSeq tk true r1 net r2).refreshCalls = 1 ∧
      (∀ t, (refreshAccessTokenSeq tk net).result = .ok t →
        authFetchSeq tk true r1 net r2 =
          ⟨(refreshAccessTokenSeq tk net).tokens,
            if r2.isOk then .ok r2.body else .error (.requestFailed r2.status r2.body),
            [tk.access, some t], 1, (refreshAccessTokenSeq tk net).requests⟩) ∧
      ((refreshAccessTokenSeq tk net).result = .error .unauthorized →
        authFetchSeq tk true r1 net r2 =
          ⟨(refreshAccessTokenSeq tk net).tokens, .error .refreshUnauthorized,
            [tk.access], 1, (refreshAccessTokenSeq tk net).requests⟩) ∧
      ((refreshAccessTokenSeq tk net).result = .error .noRefreshToken →
        authFetchSeq tk true r1 net r2 =
          ⟨(refreshAccessTokenSeq tk net).tokens, .error .noRefreshToken,
            [tk.access], 1, (refreshAccessTokenSeq tk net).requests⟩)) := by
  by_cases h1 : r1.status = 401
  · refine ⟨?_, fun hne => absurd h1 hne, fun _ => ?_⟩
    · unfold authFetchSeq
      rw [if_neg (by simp [h1])]
      cases hr : (refreshAccessTokenSeq tk net).result with
      | ok t => simp [hr]
      | error e => cases e <;> simp [hr]
    · unfold authFetchSeq
      rw [if_neg (by simp [h1])]
      refine ⟨?_, fun t ht => ?_, fun he => ?_, fun he => ?_⟩
      · cases hr : (refreshAccessTokenSeq tk net).result with
        | ok t => simp [hr]
        | error e => cases e <;> simp [hr]
      · simp [ht]
      · simp [he]
      · simp [he]
  · refine ⟨?_, fun _ => ?_, fun h => absurd h h1⟩
    · unfold authFetchSeq
      rw [if_pos h1]
      simp
    · unfold authFetchSeq
      rw [if_pos h1]

/-- Witness for C2 on the 401-then-refresh-then-success path and on the
non-401 path. -/
theorem authFetch_retry_once_witness :
    authFetchSeq (B := String) ⟨some "a0", some "r0"⟩ true ⟨401, "b1"⟩
        ⟨200, some "a1"⟩ ⟨200, "b2"⟩ =
      ⟨⟨some "a1", some "r0"⟩, .ok "b2", [some "a0", some "a1"], 1, 1⟩ ∧
    authFetchSeq (B := String) ⟨some "a0", some "r0"⟩ true ⟨500, "oops"⟩
        ⟨200, some "a1"⟩ ⟨200, "b2"⟩ =
      ⟨⟨some "a0", some "r0"⟩, .error (.requestFailed 500 "oops"), [some "a0"], 0, 0⟩ :=
  ⟨(((authFetch_retry_once ⟨some "a0", some "r0"⟩ ⟨401, "b1"⟩ ⟨200, some "a1"⟩
        ⟨200, "b2"⟩).2.2 rfl).2.1 "a1" rfl).trans rfl,
    ((authFetch_retry_once ⟨some "a0", some "r0"⟩ ⟨500, "oops"⟩ ⟨200, some "a1"⟩
        ⟨200, "b2"⟩).2.1 (by decide)).trans rfl⟩

/-! ## Startup bootstrap (`AuthProvider` effect, lines 156-170)

The mount effect runs `refreshProfile()` — which calls
`apiMe() = authFetch("/api/auth/me")` and swallows every error by setting the
profile to `null` — and then `setLoading(false)`.  Because `apiMe` goes
through `authFetch`, a 401 on the profile fetch triggers the normal
refresh-and-retry protocol of the gateway. -/

structure MeBody where
  user : User
deriving DecidableEq, Repr

structure BootstrapResult where
  user : Option User
  loading : Bool
  tokens : Tokens
  refreshRequests : Nat
deriving Repr

def bootstrapRun (tk : Tokens) (r1 : HttpResp MeBody) (net : RefreshResp)
    (r2 : HttpResp MeBody) : BootstrapResult :=
  let g := authFetchSeq tk true r1 net r2
  { user := match g.result with
      | .ok b => some b.user
      | .error _ => none,
    loading := false,
    tokens := g.tokens,
    refreshRequests := g.refreshRequests }

/-- C4, counterexample: with no access credential but a stored refresh
credential, a 401 on the bootstrap profile fetch makes the gateway issue a
refresh request (one network refresh call, not zero), and when that refresh
fails both credentials are cleared — refuting "no refresh request is
attempted — even when the access credential is absent but a refresh
credential is stored" and "both stored credentials remain exactly as they
were before bootstrap". -/
theorem bootstrap_attempts_refresh_and_clears_credentials :
    (bootstrapRun ⟨none, some "r0"⟩ ⟨401, ⟨⟨"", "", "", none⟩⟩⟩ ⟨401, none⟩
      ⟨401, ⟨⟨"", "", "", none⟩⟩⟩).refreshRequests = 1 ∧
    (bootstrapRun ⟨none, some "r0"⟩ ⟨401, ⟨⟨"", "", "", none⟩⟩⟩ ⟨401, none⟩
      ⟨401, ⟨⟨"", "", "", none⟩⟩⟩).tokens = ⟨none, none⟩ ∧
    (⟨none, none⟩ : Tokens) ≠ ⟨none, some "r0"⟩ := by
  refine ⟨rfl, rfl, by decide⟩

/-- C4 amended: the bootstrap profile fetch goes through the authenticated
gateway, so: when the first attempt's status is not 401, or when no refresh
credential is stored, no refresh request is issued and the credentials are
untouched, with the profile set from the response (cleared on failure); but
when the first attempt returns 401 and a refresh credential is stored, the
bootstrap issues exactly one refresh request — on refresh failure both
credentials are cleared and the state is unauthenticated, on refresh success
the new credential pair is stored and the retried profile fetch decides the
profile.  In every case no error escapes and `loading` is set to `false`
unconditionally. -/
theorem bootstrap_behavior (tk : Tokens) (r1 : HttpResp MeBody)
    (net : RefreshResp) (r2 : HttpResp MeBody) :
    (bootstrapRun tk r1 net r2).loading = false ∧
    (r1.status ≠ 401 →
      bootstrapRun tk r1 net r2 =
        ⟨if r1.isOk then some r1.body.user else none, false, tk, 0⟩) ∧
    (r1.status = 401 → tk.refresh = none →
      bootstrapRun tk r1 net r2 = ⟨none, false, tk, 0⟩) ∧
    (r1.status = 401 → ∀ rt, tk.refresh = some rt →
      (bootstrapRun tk r1 net r2).refreshRequests = 1 ∧
      ((refreshAccessTokenSeq tk net).result = .error .unauthorized →
        (bootstrapRun tk r1 net r2).tokens = ⟨none, none⟩ ∧
        (bootstrapRun tk r1 net r2).user = none) ∧
      (∀ t, (refreshAccessTokenSeq tk net).result = .ok t →
        (bootstrapRun tk r1 net r2).tokens = ⟨some t, some rt⟩ ∧
        (bootstrapRun tk r1 net r2).user =
          (if r2.isOk then some r2.body.user else none))) := by
  obtain ⟨h1, h2, h3⟩ := authFetch_retry_once tk r1 net r2
  refine ⟨rfl, ?_, ?_, ?_⟩
  · intro hne
    unfold bootstrapRun
    rw [h2 hne]
    cases hok : r1.isOk <;> simp [hok]
  · intro h401 hrt
    have hres : (refreshAccessTokenSeq tk net).result = .error .noRefreshToken := by
      unfold refreshAccessTokenSeq
      rw [hrt]
    have heq := (h3 h401).2.2.2 hres
    unfold bootstrapRun
    rw [heq]
    have : (refreshAccessTokenSeq tk net).tokens = tk := by
      unfold refreshAccessTokenSeq
      rw [hrt]
    rw [this]
    have : (refreshAccessTokenSeq tk net).requests = 0 := by
      unfold refreshAccessTokenSeq
      rw [hrt]
    rw [this]
  · intro h401 rt hrt
    have hreq : (refreshAccessTokenSeq tk net).requests = 1 := by
      unfold refreshAccessTokenSeq
      rw [hrt]
      rcases net.accessToken with _ | t <;> cases hok : net.isOk <;> simp
    refine ⟨?_, fun hfail => ?_, fun t hok => ?_⟩
    · cases hres : (refreshAccessTokenSeq tk net).result with
      | ok t =>
        have := (h3 h401).2.1 t hres
        unfold bootstrapRun
        rw [this, hreq]
      | error e =>
        cases e with
        | noRefreshToken =>
          exfalso
          unfold refreshAccessTokenSeq at hres
          rw [hrt] at hres
          rcases hat : net.accessToken with _ | t <;> cases hok : net.isOk <;>
            rw [hat, hok] at hres <;> simp at hres
        | unauthorized =>
          have := (h3 h401).2.2.1 hres
          unfold bootstrapRun
          rw [this, hreq]
    · have hclear : (refreshAccessTokenSeq tk net).tokens = ⟨none, none⟩ := by
        unfold refreshAccessTokenSeq at hfail ⊢
        rw [hrt] at hfail ⊢
        rcases hat : net.accessToken with _ | t <;> cases hok : net.isOk <;> simp_all
      have := (h3 h401).2.2.1 hfail
      unfold bootstrapRun
      rw [this, hclear]
      exact ⟨rfl, rfl⟩
    · have hstore : (refreshAccessTokenSeq tk net).tokens = ⟨some t, some rt⟩ := by
        unfold refreshAccessTokenSeq at hok ⊢
        rw [hrt] at hok ⊢
        rcases hat : net.accessToken with _ | t' <;> cases hok2 : net.isOk <;> simp_all
      have := (h3 h401).2.1 t hok
      unfold bootstrapRun
      rw [this, hstore]
      cases h2ok : r2.isOk <;> simp [h2ok]

/-- Witness for the amended C4: a 401 bootstrap with a stored refresh
credential issues exactly one refresh request, and on refresh failure the
credential pair is cleared with the profile unauthenticated. -/
theorem bootstrap_behavior_witness :
    (bootstrapRun ⟨none, some "r0"⟩ ⟨401, ⟨⟨"", "", "", none⟩⟩⟩ ⟨401, none⟩
      ⟨401, ⟨⟨"", "", "", none⟩⟩⟩).refreshRequests = 1 ∧
    (bootstrapRun ⟨none, some "r0"⟩ ⟨401, ⟨⟨"", "", "", none⟩⟩⟩ ⟨401, none⟩
      ⟨401, ⟨⟨"", "", "", none⟩⟩⟩).tokens = ⟨none, none⟩ ∧
    (bootstrapRun ⟨none, some "r0"⟩ ⟨401, ⟨⟨"", "", "", none⟩⟩⟩ ⟨401, none⟩
      ⟨401, ⟨⟨"", "", "", none⟩⟩⟩).user = none := by
  obtain ⟨-, -, -, h4⟩ := bootstrap_behavior ⟨none, some "r0"⟩
    ⟨401, ⟨⟨"", "", "", none⟩⟩⟩ ⟨401, none⟩ ⟨401, ⟨⟨"", "", "", none⟩⟩⟩
  obtain ⟨ha, hb, -⟩ := h4 rfl "r0" rfl
  exact ⟨ha, (hb rfl).1, (hb rfl).2⟩

/-! ## Note deletion flow (`deleteNote`, src/app/(tabs)/notes.tsx lines 289-319)

On the success path (token present, DELETE request ok) the code, in order:
issues the HTTP delete, removes the persisted summary
(`note_summary_<id>`), removes the indexed flag (`note_indexed_<id>`), and
publishes `notes:changed`.  `deleteNoteEffects` is that ordered effect list;
`applyNoteEffect` is each effect's action on the persistent store. -/

def SUMMARY_KEY (id : String) : String := "note_summary_" ++ id

def INDEXED_KEY (id : String) : String := "note_indexed_" ++ id

inductive NoteEffect
  | httpDelete (noteId : String)
  | removeSummary (noteId : String)
  | removeIndexedFlag (noteId : String)
  | clearTools (noteId : String)
  | emitNotesChanged
deriving DecidableEq, Repr

def deleteNoteEffects (noteId : String) : List NoteEffect :=
  [.httpDelete noteId, .removeSummary noteId, .removeIndexedFlag noteId, .emitNotesChanged]

def applyNoteEffect (s : Store) : NoteEffect → Store
  | .removeSummary id => s.removeItem (SUMMARY_KEY id)
  | .removeIndexedFlag id => s.removeItem (INDEXED_KEY id)
  | .clearTools id => clearNoteTools s id
  | .httpDelete _ => s
  | .emitNotesChanged => s

theorem string_append_ne_of_head_ne (c d : Char) (p q s t : String)
    (hp : p.data.head? = some c) (hq : q.data.head? = some d) (hcd : c ≠ d) :
    p ++ s ≠ q ++ t := by
  intro h
  have h2 := congrArg (fun u => u.data.head?) h
  simp only [String.data_append] at h2
  cases hpd : p.data with
  | nil => rw [hpd] at hp; cases hp
  | cons x xs =>
    cases hqd : q.data with
    | nil => rw [hqd] at hq; cases hq
    | cons y ys =>
      rw [hpd, hqd] at h2
      simp only [List.cons_append, List.head?_cons, Option.some.injEq] at h2
      rw [hpd] at hp
      rw [hqd] at hq
      simp only [List.head?_cons, Option.some.injEq] at hp hq
      exact hcd (hp ▸ hq ▸ h2)

theorem SUMMARY_KEY_ne_KEY_FC (a b : String) : SUMMARY_KEY a ≠ KEY_FC b := by
  unfold SUMMARY_KEY KEY_FC
  exact string_append_ne_of_head_ne 'n' 't' "note_summary_" "tools:flashcards:" a b
    (by decide) (by decide) (by decide)

theorem INDEXED_KEY_ne_KEY_FC (a b : String) : INDEXED_KEY a ≠ KEY_FC b := by
  unfold INDEXED_KEY KEY_FC
  exact string_append_ne_of_head_ne 'n' 't' "note_indexed_" "tools:flashcards:" a b
    (by decide) (by decide) (by decide)

theorem SUMMARY_KEY_ne_KEY_QZ (a b : String) : SUMMARY_KEY a ≠ KEY_QZ b := by
  unfold SUMMARY_KEY KEY_QZ
  exact string_append_ne_of_head_ne 'n' 't' "note_summary_" "tools:quiz:" a b
    (by decide) (by decide) (by decide)

theorem INDEXED_KEY_ne_KEY_QZ (a b : String) : INDEXED_KEY a ≠ KEY_QZ b := by
  unfold INDEXED_KEY KEY_QZ
  exact string_append_ne_of_head_ne 'n' 't' "note_indexed_" "tools:quiz:" a b
    (by decide) (by decide) (by decide)

/-- C8. The note-deletion flow never invokes the artifact cache's clear: the
success-path effect trace of `deleteNote` contains no `clearTools` effect even
though it does publish the resource-changed event, and running the trace on
the persistent store leaves both the flashcards and the quiz cache entries of
the deleted note exactly as they were.  The claim — that `clearNoteTools` runs
before the event is published — therefore fails on every deletion; the code
defines `clearNoteTools` for exactly this purpose but never calls it. -/
theorem deleteNote_never_clears_artifact_cache (id : String) (s : Store) :
    NoteEffect.clearTools id ∉ deleteNoteEffects id ∧
    NoteEffect.emitNotesChanged ∈ deleteNoteEffects id ∧
    Store.getItem ((deleteNoteEffects id).foldl applyNoteEffect s) (KEY_FC id) =
      s.getItem (KEY_FC id) ∧
    Store.getItem ((deleteNoteEffects id).foldl applyNoteEffect s) (KEY_QZ id) =
      s.getItem (KEY_QZ id) := by
  refine ⟨by simp [deleteNoteEffects], by simp [deleteNoteEffects], ?_, ?_⟩
  · show Store.getItem ((s.removeItem (SUMMARY_KEY id)).removeItem (INDEXED_KEY id))
      (KEY_FC id) = s.getItem (KEY_FC id)
    rw [Store.getItem_removeItem_ne _ _ _ (INDEXED_KEY_ne_KEY_FC id id),
      Store.getItem_removeItem_ne _ _ _ (SUMMARY_KEY_ne_KEY_FC id id)]
  · show Store.getItem ((s.removeItem (SUMMARY_KEY id)).removeItem (INDEXED_KEY id))
      (KEY_QZ id) = s.getItem (KEY_QZ id)
    rw [Store.getItem_removeItem_ne _ _ _ (INDEXED_KEY_ne_KEY_QZ id id),
      Store.getItem_removeItem_ne _ _ _ (SUMMARY_KEY_ne_KEY_QZ id id)]

/-- Witness for C8 at a concrete note id with a cached flashcards entry. -/
theorem deleteNote_never_clears_artifact_cache_witness :
    NoteEffect.clearTools "n1" ∉ deleteNoteEffects "n1" ∧
    NoteEffect.emitNotesChanged ∈ deleteNoteEffects "n1" ∧
    Store.getItem ((deleteNoteEffects "n1").foldl applyNoteEffect
      [(KEY_FC "n1", "cards")]) (KEY_FC "n1") =
      Store.getItem [(KEY_FC "n1", "cards")] (KEY_FC "n1") ∧
    Store.getItem ((deleteNoteEffects "n1").foldl applyNoteEffect
      [(KEY_FC "n1", "cards")]) (KEY_QZ "n1") =
      Store.getItem [(KEY_FC "n1", "cards")] (KEY_QZ "n1") :=
  deleteNote_never_clears_artifact_cache "n1" [(KEY_FC "n1", "cards")]

/-! ## Sign-in / sign-up input normalization
(`apiLogin` lines 128-144, `apiRegister` lines 109-126)

The request bodies are built with `d.email.trim().toLowerCase()`,
`d.name.trim()` and the password passed through unchanged.  `jsTrim` models
`String.prototype.trim` (strip leading and trailing whitespace; the modelled
whitespace set is the ASCII whitespace characters plus NBSP and the BOM);
`lowerChar` models `String.prototype.toLowerCase` on the Latin letters, every
other character being fixed. -/

def jsWhitespace (c : Char) : Bool :=
  c = ' ' || c = '\t' || c = '\n' || c = '\r' || c.toNat = 11 || c.toNat = 12 ||
    c.toNat = 0xa0 || c.toNat = 0xfeff

def jsTrim (s : String) : String :=
  ⟨((s.data.dropWhile jsWhitespace).reverse.dropWhile jsWhitespace).reverse⟩

def lowerChar (c : Char) : Char :=
  match c with
  | 'A' => 'a' | 'B' => 'b' | 'C' => 'c' | 'D' => 'd' | 'E' => 'e' | 'F' => 'f'
  | 'G' => 'g' | 'H' => 'h' | 'I' => 'i' | 'J' => 'j' | 'K' => 'k' | 'L' => 'l'
  | 'M' => 'm' | 'N' => 'n' | 'O' => 'o' | 'P' => 'p' | 'Q' => 'q' | 'R' => 'r'
  | 'S' => 's' | 'T' => 't' | 'U' => 'u' | 'V' => 'v' | 'W' => 'w' | 'X' => 'x'
  | 'Y' => 'y' | 'Z' => 'z'
  | other => other

def jsToLower (s : String) : String := ⟨s.data.map lowerChar⟩

structure LoginBody where
  email : String
  password : String
deriving DecidableEq, Repr

structure RegisterBody where
  name : String
  email : String
  password : String
deriving DecidableEq, Repr

def apiLoginBody (email password : String) : LoginBody :=
  ⟨jsToLower (jsTrim email), password⟩

def apiRegisterBody (name email password : String) : RegisterBody :=
  ⟨jsTrim name, jsToLower (jsTrim email), password⟩

theorem jsWhitespace_lowerChar (c : Char) :
    jsWhitespace (lowerChar c) = jsWhitespace c := by
  unfold lowerChar
  split <;> rfl

theorem dropWhile_append_all (l1 l2 : List Char)
    (h : l1.all jsWhitespace = true) :
    (l1 ++ l2).dropWhile jsWhitespace = l2.dropWhile jsWhitespace := by
  induction l1 with
  | nil => rfl
  | cons a t ih =>
    rw [List.all_cons, Bool.and_eq_true] at h
    rw [List.cons_append, List.dropWhile_cons, if_pos h.1]
    exact ih h.2

theorem map_lower_dropWhile (l1 l2 : List Char)
    (h : l1.map lowerChar = l2.map lowerChar) :
    (l1.dropWhile jsWhitespace).map lowerChar =
      (l2.dropWhile jsWhitespace).map lowerChar := by
  induction l1 generalizing l2 with
  | nil =>
    cases l2 with
    | nil => rfl
    | cons b t2 => rw [List.map_nil, List.map_cons] at h; cases h
  | cons a t ih =>
    cases l2 with
    | nil => rw [List.map_cons, List.map_nil] at h; cases h
    | cons b t2 =>
      rw [List.map_cons, List.map_cons, List.cons.injEq] at h
      have hws : jsWhitespace a = jsWhitespace b := by
        rw [← jsWhitespace_lowerChar a, ← jsWhitespace_lowerChar b, h.1]
      rw [List.dropWhile_cons, List.dropWhile_cons, ← hws]
      cases hwa : jsWhitespace a with
      | true => simp only [if_pos]; exact ih t2 h.2
      | false =>
        simp only [Bool.false_eq_true, if_neg, not_false_iff]
        rw [List.map_cons, List.map_cons, h.1, h.2]

theorem jsTrim_map_lower (s1 s2 : String)
    (h : s1.data.map lowerChar = s2.data.map lowerChar) :
    jsToLower (jsTrim s1) = jsToLower (jsTrim s2) := by
  unfold jsToLower jsTrim
  have h1 := map_lower_dropWhile _ _ h
  have h2 : (s1.data.dropWhile jsWhitespace).reverse.map lowerChar =
      (s2.data.dropWhile jsWhitespace).reverse.map lowerChar := by
    rw [List.map_reverse, List.map_reverse, h1]
  have h3 := map_lower_dropWhile _ _ h2
  have h4 : ((s1.data.dropWhile jsWhitespace).reverse.dropWhile jsWhitespace).reverse.map
        lowerChar =
      ((s2.data.dropWhile jsWhitespace).reverse.dropWhile jsWhitespace).reverse.map
        lowerChar := by
    rw [List.map_reverse, List.map_reverse, h3]
  exact congrArg String.mk h4

theorem jsTrim_surround (e w1 w2 : String)
    (hw1 : w1.data.all jsWhitespace = true)
    (hw2 : w2.data.all jsWhitespace = true) :
    jsTrim (w1 ++ e ++ w2) = jsTrim e := by
  unfold jsTrim
  apply congrArg String.mk
  rw [String.data_append, String.data_append, List.append_assoc,
    dropWhile_append_all _ _ hw1]
  by_cases hl : e.data.dropWhile jsWhitespace = []
  · have he : ∀ x ∈ e.data, jsWhitespace x := List.dropWhile_eq_nil_iff.mp hl
    have : (e.data ++ w2.data).dropWhile jsWhitespace = w2.data.dropWhile jsWhitespace :=
      dropWhile_append_all _ _ (by rw [List.all_eq_true]; intro x hx; exact he x hx)
    have hw2' : w2.data.dropWhile jsWhitespace = [] :=
      List.dropWhile_eq_nil_iff.mpr (fun x hx => List.all_eq_true.mp hw2 x hx)
    rw [this, hl, hw2']
  · have hsplit : (e.data ++ w2.data).dropWhile jsWhitespace =
        e.data.dropWhile jsWhitespace ++ w2.data := by
      rw [List.dropWhile_append]
      simp only [List.isEmpty_iff]
      rw [if_neg hl]
    rw [hsplit, List.reverse_append,
      dropWhile_append_all _ _ (by rw [List.all_reverse]; exact hw2)]

/-- C10. Input normalization in sign-in and sign-up: the email sent to the
backend is the caller's email trimmed of surrounding whitespace and
lowercased, the registration name is trimmed, and the password travels
unmodified; consequently, two invocations whose emails differ only in
surrounding whitespace and letter case (and agree on the password) produce
identical request bodies. -/
theorem signIn_signUp_normalize_input (e e' n p w1 w2 : String)
    (hw1 : w1.data.all jsWhitespace = true)
    (hw2 : w2.data.all jsWhitespace = true)
    (hcase : e'.data.map lowerChar = e.data.map lowerChar) :
    apiLoginBody e p = ⟨jsToLower (jsTrim e), p⟩ ∧
    apiRegisterBody n e p = ⟨jsTrim n, jsToLower (jsTrim e), p⟩ ∧
    apiLoginBody (w1 ++ e' ++ w2) p = apiLoginBody e p ∧
    apiRegisterBody n (w1 ++ e' ++ w2) p = apiRegisterBody n e p := by
  have hkey : jsToLower (jsTrim (w1 ++ e' ++ w2)) = jsToLower (jsTrim e) := by
    rw [jsTrim_surround e' w1 w2 hw1 hw2]
    exact jsTrim_map_lower e' e hcase
  refine ⟨rfl, rfl, ?_, ?_⟩
  · unfold apiLoginBody
    rw [hkey]
  · unfold apiRegisterBody
    rw [hkey]

/-- Witness for C10: `"  User@Mail.COM "` and `"uSER@maIL.com"` produce the
same login and registration bodies. -/
theorem signIn_signUp_normalize_input_witness :
    apiLoginBody ("  " ++ "User@Mail.COM" ++ " ") "pw" = apiLoginBody "uSER@maIL.com" "pw" ∧
    apiRegisterBody " Bob " ("  " ++ "User@Mail.COM" ++ " ") "pw" =
      apiRegisterBody " Bob " "uSER@maIL.com" "pw" :=
  ⟨(signIn_signUp_normalize_input "uSER@maIL.com" "User@Mail.COM" " Bob " "pw" "  " " "
      (by decide) (by decide) (by decide)).2.2.1,
    (signIn_signUp_normalize_input "uSER@maIL.com" "User@Mail.COM" " Bob " "pw" "  " " "
      (by decide) (by decide) (by decide)).2.2.2⟩

/-! ## Single-flight refresh under concurrency
(`refreshAccessToken`, AuthProvider lines 48-76, with `setTokens` lines 36-45)

The cooperative concurrency of the source is modelled as a small-step system:
each caller of `refreshAccessToken` is a task, the async IIFE assigned to
`refreshInFlight` is represented by the `marker` (the in-flight promise and
its suspension phase), and a scheduler (`SchedStep` list) chooses which task
resumes or which I/O completes.  The atomic (yield-free) blocks of the source
become single steps:

* resuming a caller after `await getTokens()` runs, without yielding, the
  `!refreshToken` throw, the `if (refreshInFlight)` join, and otherwise the
  IIFE creation up to its first `await` — which calls `fetch` (one network
  refresh request) and publishes the promise in `refreshInFlight`;
* `response`/`parseBody` are the IIFE resumptions at `await fetch` and
  `await res.json()`; the `parseBody` step also performs the synchronous
  in-memory assignments at the top of `setTokens` (both cells written before
  any storage `await`), on success `(json.accessToken, refreshToken)` with the
  creator's captured refresh credential, on failure `(null, null)`;
* `finish` is the IIFE resumption after `await setTokens`: it clears
  `refreshInFlight` and only then settles the promise (lines 62-63 and 66-68),
  so a waiter can resume only in a state where the marker of its cycle is
  already cleared;
* resuming a caller that awaits a settled promise delivers that cycle's
  outcome; the creator additionally runs the outer `finally`
  (`refreshInFlight = null`). -/

inductive RefreshOutcome
  | success (token : String)
  | failure
deriving DecidableEq, Repr

inductive CyclePhase
  | awaitingResponse (capturedRefresh : String)
  | awaitingBody (capturedRefresh : String) (r : Option String)
  | finishing (outcome : RefreshOutcome)
deriving DecidableEq, Repr

inductive CallerState
  | atStart
  | waiting (pid : Nat) (creator : Bool)
  | doneOk (pid : Nat) (token : String)
  | doneErr (pid : Nat)
  | doneNoToken
deriving DecidableEq, Repr

structure RefreshSystem where
  access : Option String
  refresh : Option String
  marker : Option (Nat × CyclePhase)
  resolved : List RefreshOutcome
  fetchCount : Nat
  callers : List CallerState
deriving DecidableEq, Repr

inductive SchedStep
  | resume (i : Nat)
  | response (r : Option String)
  | parseBody
  | finish
deriving DecidableEq, Repr

def resumeCaller (s : RefreshSystem) (i : Nat) : RefreshSystem :=
  match s.callers.get? i with
  | none => s
  | some .atStart =>
    match s.refresh with
    | none => { s with callers := s.callers.set i .doneNoToken }
    | some rt =>
      match s.marker with
      | some (pid, _) => { s with callers := s.callers.set i (.waiting pid false) }
      | none =>
        { s with
          fetchCount := s.fetchCount + 1,
          marker := some (s.resolved.length, .awaitingResponse rt),
          callers := s.callers.set i (.waiting s.resolved.length true) }
  | some (.waiting pid c) =>
    match s.resolved.get? pid with
    | none => s
    | some o =>
      let newCaller : CallerState := match o with
        | .success t => .doneOk pid t
        | .failure => .doneErr pid
      let s1 := { s with callers := s.callers.set i newCaller }
      if c then { s1 with marker := none } else s1
  | some _ => s

def stepResponse (s : RefreshSystem) (r : Option String) : RefreshSystem :=
  match s.marker with
  | some (pid, .awaitingResponse rt) => { s with marker := some (pid, .awaitingBody rt r) }
  | _ => s

def stepParse (s : RefreshSystem) : RefreshSystem :=
  match s.marker with
  | some (pid, .awaitingBody rt r) =>
    match r with
    | some t =>
      { s with access := some t, refresh := some rt,
               marker := some (pid, .finishing (.success t)) }
    | none =>
      { s with access := none, refresh := none,
               marker := some (pid, .finishing .failure) }
  | _ => s

def stepFinish (s : RefreshSystem) : RefreshSystem :=
  match s.marker with
  | some (_, .finishing o) => { s with marker := none, resolved := s.resolved ++ [o] }
  | _ => s

def step (s : RefreshSystem) : SchedStep → RefreshSystem
  | .resume i => resumeCaller s i
  | .response r => stepResponse s r
  | .parseBody => stepParse s
  | .finish => stepFinish s

def run (s : RefreshSystem) (sched : List SchedStep) : RefreshSystem :=
  sched.foldl step s

def initSystem (n : Nat) (a0 r0 : Option String) : RefreshSystem :=
  ⟨a0, r0, none, [], 0, List.replicate n .atStart⟩

/-- Invariant of the refresh system started with access `a0` and stored
refresh credential `rt0`: the credential pair is never a mix (it is the
initial pair, a refreshed access with the retained refresh credential, or
fully cleared); an in-flight cycle always captured the stored refresh
credential and its promise is unsettled (its id equals the number of settled
cycles — so the marker of a settled cycle is already cleared whenever a waiter
can observe its outcome); while a cycle is finishing, the credential pair
already holds that cycle's write; and a caller finished with an outcome got
exactly the settled outcome of the cycle it awaited. -/
def SysInv (a0 : Option String) (rt0 : String) (s : RefreshSystem) : Prop :=
  ((s.access = a0 ∧ s.refresh = some rt0) ∨
    (∃ t, s.access = some t ∧ s.refresh = some rt0) ∨
    (s.access = none ∧ s.refresh = none)) ∧
  (∀ pid rt, s.marker = some (pid, .awaitingResponse rt) → rt = rt0) ∧
  (∀ pid rt r, s.marker = some (pid, .awaitingBody rt r) → rt = rt0) ∧
  (∀ pid ph, s.marker = some (pid, ph) → pid = s.resolved.length) ∧
  (∀ pid t, s.marker = some (pid, .finishing (.success t)) →
    s.access = some t ∧ s.refresh = some rt0) ∧
  (∀ pid, s.marker = some (pid, .finishing .failure) →
    s.access = none ∧ s.refresh = none) ∧
  (∀ c ∈ s.callers, ∀ pid t, c = .doneOk pid t →
    s.resolved.get? pid = some (.success t)) ∧
  (∀ c ∈ s.callers, ∀ pid, c = .doneErr pid → s.resolved.get? pid = some .failure)

theorem resumeCaller_oob (s : RefreshSystem) (i : Nat)
    (h : s.callers.get? i = none) : resumeCaller s i = s := by
  unfold resumeCaller
  rw [h]

theorem resumeCaller_doneOk (s : RefreshSystem) (i : Nat) (pid : Nat) (t : String)
    (h : s.callers.get? i = some (.doneOk pid t)) : resumeCaller s i = s := by
  unfold resumeCaller
  rw [h]

theorem resumeCaller_doneErr (s : RefreshSystem) (i : Nat) (pid : Nat)
    (h : s.callers.get? i = some (.doneErr pid)) : resumeCaller s i = s := by
  unfold resumeCaller
  rw [h]

theorem resumeCaller_doneNoToken (s : RefreshSystem) (i : Nat)
    (h : s.callers.get? i = some .doneNoToken) : resumeCaller s i = s := by
  unfold resumeCaller
  rw [h]

theorem resumeCaller_atStart_noToken (s : RefreshSystem) (i : Nat)
    (h1 : s.callers.get? i = some .atStart) (h2 : s.refresh = none) :
    resumeCaller s i = { s with callers := s.callers.set i .doneNoToken } := by
  unfold resumeCaller
  rw [h1, h2]

theorem resumeCaller_atStart_join (s : RefreshSystem) (i : Nat) (rt : String)
    (pid : Nat) (ph : CyclePhase)
    (h1 : s.callers.get? i = some .atStart) (h2 : s.refresh = some rt)
    (h3 : s.marker = some (pid, ph)) :
    resumeCaller s i = { s with callers := s.callers.set i (.waiting pid false) } := by
  unfold resumeCaller
  rw [h1, h2, h3]

theorem resumeCaller_atStart_create (s : RefreshSystem) (i : Nat) (rt : String)
    (h1 : s.callers.get? i = some .atStart) (h2 : s.refresh = some rt)
    (h3 : s.marker = none) :
    resumeCaller s i =
      { s with
        fetchCount := s.fetchCount + 1,
        marker := some (s.resolved.length, .awaitingResponse rt),
        callers := s.callers.set i (.waiting s.resolved.length true) } := by
  unfold resumeCaller
  rw [h1, h2, h3]

theorem resumeCaller_waiting_pending (s : RefreshSystem) (i : Nat) (pid : Nat)
    (cr : Bool) (h1 : s.callers.get? i = some (.waiting pid cr))
    (h2 : s.resolved.get? pid = none) : resumeCaller s i = s := by
  unfold resumeCaller
  rw [h1]
  simp only [h2]

/-- The caller state produced by resuming a waiter of a settled cycle. -/
def settledCaller (pid : Nat) : RefreshOutcome → CallerState
  | .success t => .doneOk pid t
  | .failure => .doneErr pid

theorem resumeCaller_waiting_settled (s : RefreshSystem) (i : Nat) (pid : Nat)
    (cr : Bool) (o : RefreshOutcome)
    (h1 : s.callers.get? i = some (.waiting pid cr))
    (h2 : s.resolved.get? pid = some o) :
    resumeCaller s i =
      (if cr then
        { s with callers := s.callers.set i (settledCaller pid o), marker := none }
      else
        { s with callers := s.callers.set i (settledCaller pid o) }) := by
  unfold resumeCaller
  rw [h1]
  simp only [h2]
  cases cr <;> cases o <;> rfl

theorem sysInv_init (n : Nat) (a0 : Option String) (rt0 : String) :
    SysInv a0 rt0 (initSystem n a0 (some rt0)) := by
  refine ⟨Or.inl ⟨rfl, rfl⟩, ?_, ?_, ?_, ?_, ?_, ?_, ?_⟩
  · intro pid rt hmk
    cases hmk
  · intro pid rt r hmk
    cases hmk
  · intro pid ph hmk
    cases hmk
  · intro pid t hmk
    cases hmk
  · intro pid hmk
    cases hmk
  · intro c hc pid t hct
    rw [List.eq_of_mem_replicate hc] at hct
    cases hct
  · intro c hc pid hct
    rw [List.eq_of_mem_replicate hc] at hct
    cases hct

theorem sysInv_step (a0 : Option String) (rt0 : String) (s : RefreshSystem)
    (h : SysInv a0 rt0 s) (e : SchedStep) : SysInv a0 rt0 (step s e) := by
  obtain ⟨hpair, hrtA, hrtB, hpid, hfinS, hfinF, hok, herr⟩ := h
  have hrt0 : ∀ rt, s.refresh = some rt → rt = rt0 := by
    intro rt hrt
    rcases hpair with ⟨-, h2⟩ | ⟨t, -, h2⟩ | ⟨-, h2⟩ <;> rw [h2] at hrt <;>
      cases hrt <;> rfl
  cases e with
  | response r =>
    show SysInv a0 rt0 (stepResponse s r)
    unfold stepResponse
    cases hm : s.marker with
    | none => exact ⟨hpair, hrtA, hrtB, hpid, hfinS, hfinF, hok, herr⟩
    | some pc =>
      obtain ⟨pid, ph⟩ := pc
      cases ph with
      | awaitingResponse rt =>
        refine ⟨hpair, ?_, ?_, ?_, ?_, ?_, hok, herr⟩
        · intro pid' rt' hmk
          simp only [Option.some.injEq, Prod.mk.injEq] at hmk
          cases hmk.2
        · intro pid' rt' r' hmk
          simp only [Option.some.injEq, Prod.mk.injEq, CyclePhase.awaitingBody.injEq] at hmk
          rw [← hmk.2.1]
          exact hrtA pid rt hm
        · intro pid' ph' hmk
          simp only [Option.some.injEq, Prod.mk.injEq] at hmk
          rw [← hmk.1]
          exact hpid pid _ hm
        · intro pid' t hmk
          simp only [Option.some.injEq, Prod.mk.injEq] at hmk
          cases hmk.2
        · intro pid' hmk
          simp only [Option.some.injEq, Prod.mk.injEq] at hmk
          cases hmk.2
      | awaitingBody rt r' => exact ⟨hpair, hrtA, hrtB, hpid, hfinS, hfinF, hok, herr⟩
      | finishing o => exact ⟨hpair, hrtA, hrtB, hpid, hfinS, hfinF, hok, herr⟩
  | parseBody =>
    show SysInv a0 rt0 (stepParse s)
    unfold stepParse
    cases hm : s.marker with
    | none => exact ⟨hpair, hrtA, hrtB, hpid, hfinS, hfinF, hok, herr⟩
    | some pc =>
      obtain ⟨pid, ph⟩ := pc
      cases ph with
      | awaitingResponse rt => exact ⟨hpair, hrtA, hrtB, hpid, hfinS, hfinF, hok, herr⟩
      | finishing o => exact ⟨hpair, hrtA, hrtB, hpid, hfinS, hfinF, hok, herr⟩
      | awaitingBody rt r =>
        have hrt : rt = rt0 := hrtB pid rt r hm
        cases r with
        | some t =>
          refine ⟨Or.inr (Or.inl ⟨t, rfl, by rw [hrt]⟩), ?_, ?_, ?_, ?_, ?_, hok, herr⟩
          · intro pid' rt' hmk
            simp only [Option.some.injEq, Prod.mk.injEq] at hmk
            cases hmk.2
          · intro pid' rt' r' hmk
            simp only [Option.some.injEq, Prod.mk.injEq] at hmk
            cases hmk.2
          · intro pid' ph' hmk
            simp only [Option.some.injEq, Prod.mk.injEq] at hmk
            rw [← hmk.1]
            exact hpid pid _ hm
          · intro pid' t' hmk
            simp only [Option.some.injEq, Prod.mk.injEq,
              CyclePhase.finishing.injEq, RefreshOutcome.success.injEq] at hmk
            rw [← hmk.2, hrt]
            exact ⟨rfl, rfl⟩
          · intro pid' hmk
            simp only [Option.some.injEq, Prod.mk.injEq] at hmk
            cases hmk.2
        | none =>
          refine ⟨Or.inr (Or.inr ⟨rfl, rfl⟩), ?_, ?_, ?_, ?_, ?_, hok, herr⟩
          · intro pid' rt' hmk
            simp only [Option.some.injEq, Prod.mk.injEq] at hmk
            cases hmk.2
          · intro pid' rt' r' hmk
            simp only [Option.some.injEq, Prod.mk.injEq] at hmk
            cases hmk.2
          · intro pid' ph' hmk
            simp only [Option.some.injEq, Prod.mk.injEq] at hmk
            rw [← hmk.1]
            exact hpid pid _ hm
          · intro pid' t' hmk
            simp only [Option.some.injEq, Prod.mk.injEq, CyclePhase.finishing.injEq] at hmk
            cases hmk.2
          · intro pid' hmk
            exact ⟨rfl, rfl⟩
  | finish =>
    show SysInv a0 rt0 (stepFinish s)
    unfold stepFinish
    cases hm : s.marker with
    | none => exact ⟨hpair, hrtA, hrtB, hpid, hfinS, hfinF, hok, herr⟩
    | some pc =>
      obtain ⟨pid, ph⟩ := pc
      cases ph with
      | awaitingResponse rt => exact ⟨hpair, hrtA, hrtB, hpid, hfinS, hfinF, hok, herr⟩
      | awaitingBody rt r => exact ⟨hpair, hrtA, hrtB, hpid, hfinS, hfinF, hok, herr⟩
      | finishing o =>
        refine ⟨hpair, ?_, ?_, ?_, ?_, ?_, ?_, ?_⟩
        · intro pid' rt' hmk
          cases hmk
        · intro pid' rt' r' hmk
          cases hmk
        · intro pid' ph' hmk
          cases hmk
        · intro pid' t hmk
          cases hmk
        · intro pid' hmk
          cases hmk
        · intro c hc pid' t hct
          have := hok c hc pid' t hct
          have hlt : pid' < s.resolved.length := by
            rcases List.get?_eq_some.mp this with ⟨hl, -⟩
            exact hl
          rw [List.get?_append hlt]
          exact this
        · intro c hc pid' hct
          have := herr c hc pid' hct
          have hlt : pid' < s.resolved.length := by
            rcases List.get?_eq_some.mp this with ⟨hl, -⟩
            exact hl
          rw [List.get?_append hlt]
          exact this
  | resume i =>
    show SysInv a0 rt0 (resumeCaller s i)
    cases hci : s.callers.get? i with
    | none =>
      rw [resumeCaller_oob s i hci]
      exact ⟨hpair, hrtA, hrtB, hpid, hfinS, hfinF, hok, herr⟩
    | some c =>
      cases c with
      | doneOk pid t =>
        rw [resumeCaller_doneOk s i pid t hci]
        exact ⟨hpair, hrtA, hrtB, hpid, hfinS, hfinF, hok, herr⟩
      | doneErr pid =>
        rw [resumeCaller_doneErr s i pid hci]
        exact ⟨hpair, hrtA, hrtB, hpid, hfinS, hfinF, hok, herr⟩
      | doneNoToken =>
        rw [resumeCaller_doneNoToken s i hci]
        exact ⟨hpair, hrtA, hrtB, hpid, hfinS, hfinF, hok, herr⟩
      | atStart =>
        cases hrf : s.refresh with
        | none =>
          rw [resumeCaller_atStart_noToken s i hci hrf]
          refine ⟨hpair, hrtA, hrtB, hpid, hfinS, hfinF, ?_, ?_⟩
          · intro c hc pid t hct
            rcases List.mem_or_eq_of_mem_set hc with hc' | rfl
            · exact hok c hc' pid t hct
            · cases hct
          · intro c hc pid hct
            rcases List.mem_or_eq_of_mem_set hc with hc' | rfl
            · exact herr c hc' pid hct
            · cases hct
        | some rt =>
          cases hm : s.marker with
          | some pc =>
            rw [resumeCaller_atStart_join s i rt pc.1 pc.2 hci hrf (by rw [hm])]
            refine ⟨hpair, hrtA, hrtB, hpid, hfinS, hfinF, ?_, ?_⟩
            · intro c hc pid t hct
              rcases List.mem_or_eq_of_mem_set hc with hc' | rfl
              · exact hok c hc' pid t hct
              · cases hct
            · intro c hc pid hct
              rcases List.mem_or_eq_of_mem_set hc with hc' | rfl
              · exact herr c hc' pid hct
              · cases hct
          | none =>
            rw [resumeCaller_atStart_create s i rt hci hrf hm]
            refine ⟨hpair, ?_, ?_, ?_, ?_, ?_, ?_, ?_⟩
            · intro pid' rt' hmk
              simp only [Option.some.injEq, Prod.mk.injEq,
                CyclePhase.awaitingResponse.injEq] at hmk
              rw [← hmk.2]
              exact hrt0 rt hrf
            · intro pid' rt' r' hmk
              simp only [Option.some.injEq, Prod.mk.injEq] at hmk
              cases hmk.2
            · intro pid' ph' hmk
              simp only [Option.some.injEq, Prod.mk.injEq] at hmk
              rw [← hmk.1]
            · intro pid' t hmk
              simp only [Option.some.injEq, Prod.mk.injEq] at hmk
              cases hmk.2
            · intro pid' hmk
              simp only [Option.some.injEq, Prod.mk.injEq] at hmk
              cases hmk.2
            · intro c hc pid t hct
              rcases List.mem_or_eq_of_mem_set hc with hc' | rfl
              · exact hok c hc' pid t hct
              · cases hct
            · intro c hc pid hct
              rcases List.mem_or_eq_of_mem_set hc with hc' | rfl
              · exact herr c hc' pid hct
              · cases hct
      | waiting pid cr =>
        cases hro : s.resolved.get? pid with
        | none =>
          rw [resumeCaller_waiting_pending s i pid cr hci hro]
          exact ⟨hpair, hrtA, hrtB, hpid, hfinS, hfinF, hok, herr⟩
        | some o =>
          rw [resumeCaller_waiting_settled s i pid cr o hci hro]
          have hcallers : ∀ c', c' ∈ s.callers.set i (settledCaller pid o) →
              (∀ pid' t', c' = .doneOk pid' t' →
                s.resolved.get? pid' = some (.success t')) ∧
              (∀ pid', c' = .doneErr pid' → s.resolved.get? pid' = some .failure) := by
            intro c' hc'
            rcases List.mem_or_eq_of_mem_set hc' with hcm | rfl
            · exact ⟨fun pid' t' hct => hok c' hcm pid' t' hct,
                fun pid' hct => herr c' hcm pid' hct⟩
            · cases o with
              | success t =>
                refine ⟨?_, ?_⟩
                · intro pid' t' hct
                  simp only [settledCaller] at hct
                  cases hct
                  exact hro
                · intro pid' hct
                  simp only [settledCaller] at hct
                  cases hct
              | failure =>
                refine ⟨?_, ?_⟩
                · intro pid' t' hct
                  simp only [settledCaller] at hct
                  cases hct
                · intro pid' hct
                  simp only [settledCaller] at hct
                  cases hct
                  exact hro
          cases cr with
          | false =>
            rw [if_neg (by simp)]
            exact ⟨hpair, hrtA, hrtB, hpid, hfinS, hfinF,
              fun c' hc' => (hcallers c' hc').1, fun c' hc' => (hcallers c' hc').2⟩
          | true =>
            rw [if_pos rfl]
            refine ⟨hpair, ?_, ?_, ?_, ?_, ?_,
              fun c' hc' => (hcallers c' hc').1, fun c' hc' => (hcallers c' hc').2⟩
            · intro pid' rt' hmk
              cases hmk
            · intro pid' rt' r' hmk
              cases hmk
            · intro pid' ph' hmk
              cases hmk
            · intro pid' t hmk
              cases hmk
            · intro pid' hmk
              cases hmk

theorem sysInv_run (a0 : Option String) (rt0 : String) (s : RefreshSystem)
    (h : SysInv a0 rt0 s) (sched : List SchedStep) : SysInv a0 rt0 (run s sched) := by
  induction sched generalizing s with
  | nil => exact h
  | cons e rest ih => exact ih (step s e) (sysInv_step a0 rt0 s h e)

theorem stepResponse_noMarker (s : RefreshSystem) (r : Option String)
    (h : s.marker = none) : stepResponse s r = s := by
  unfold stepResponse
  rw [h]

theorem stepResponse_resp (s : RefreshSystem) (r : Option String) (pid : Nat)
    (rt : String) (h : s.marker = some (pid, .awaitingResponse rt)) :
    stepResponse s r = { s with marker := some (pid, .awaitingBody rt r) } := by
  unfold stepResponse
  rw [h]

theorem stepResponse_body (s : RefreshSystem) (r : Option String) (pid : Nat)
    (rt : String) (r0 : Option String)
    (h : s.marker = some (pid, .awaitingBody rt r0)) : stepResponse s r = s := by
  unfold stepResponse
  rw [h]

theorem stepResponse_finishing (s : RefreshSystem) (r : Option String) (pid : Nat)
    (o : RefreshOutcome) (h : s.marker = some (pid, .finishing o)) :
    stepResponse s r = s := by
  unfold stepResponse
  rw [h]

theorem stepParse_noMarker (s : RefreshSystem) (h : s.marker = none) :
    stepParse s = s := by
  unfold stepParse
  rw [h]

theorem stepParse_resp (s : RefreshSystem) (pid : Nat) (rt : String)
    (h : s.marker = some (pid, .awaitingResponse rt)) : stepParse s = s := by
  unfold stepParse
  rw [h]

theorem stepParse_body_some (s : RefreshSystem) (pid : Nat) (rt : String) (t : String)
    (h : s.marker = some (pid, .awaitingBody rt (some t))) :
    stepParse s =
      { s with
        access := some t
        refresh := some rt
        marker := some (pid, .finishing (.success t)) } := by
  unfold stepParse
  rw [h]

theorem stepParse_body_none (s : RefreshSystem) (pid : Nat) (rt : String)
    (h : s.marker = some (pid, .awaitingBody rt none)) :
    stepParse s =
      { s with
        access := none
        refresh := none
        marker := some (pid, .finishing .failure) } := by
  unfold stepParse
  rw [h]

theorem stepParse_finishing (s : RefreshSystem) (pid : Nat) (o : RefreshOutcome)
    (h : s.marker = some (pid, .finishing o)) : stepParse s = s := by
  unfold stepParse
  rw [h]

theorem stepFinish_noMarker (s : RefreshSystem) (h : s.marker = none) :
    stepFinish s = s := by
  unfold stepFinish
  rw [h]

theorem stepFinish_resp (s : RefreshSystem) (pid : Nat) (rt : String)
    (h : s.marker = some (pid, .awaitingResponse rt)) : stepFinish s = s := by
  unfold stepFinish
  rw [h]

theorem stepFinish_body (s : RefreshSystem) (pid : Nat) (rt : String)
    (r0 : Option String) (h : s.marker = some (pid, .awaitingBody rt r0)) :
    stepFinish s = s := by
  unfold stepFinish
  rw [h]

theorem stepFinish_finishing (s : RefreshSystem) (pid : Nat) (o : RefreshOutcome)
    (h : s.marker = some (pid, .finishing o)) :
    stepFinish s = { s with marker := none, resolved := s.resolved ++ [o] } := by
  unfold stepFinish
  rw [h]

/-- Invariant of a refresh system started with no stored refresh credential:
no cycle ever starts, no network request is issued, the credential pair is
never touched, and every caller either has not run or failed with the
"No refresh token" error. -/
def NoTokenInv (a0 : Option String) (s : RefreshSystem) : Prop :=
  s.access = a0 ∧ s.refresh = none ∧ s.marker = none ∧ s.resolved = [] ∧
  s.fetchCount = 0 ∧ ∀ c ∈ s.callers, c = .atStart ∨ c = .doneNoToken

theorem noTokenInv_step (a0 : Option String) (s : RefreshSystem)
    (h : NoTokenInv a0 s) (e : SchedStep) : NoTokenInv a0 (step s e) := by
  obtain ⟨ha, hr, hm, hres, hf, hc⟩ := h
  cases e with
  | response r =>
    show NoTokenInv a0 (stepResponse s r)
    rw [stepResponse_noMarker s r hm]
    exact ⟨ha, hr, hm, hres, hf, hc⟩
  | parseBody =>
    show NoTokenInv a0 (stepParse s)
    rw [stepParse_noMarker s hm]
    exact ⟨ha, hr, hm, hres, hf, hc⟩
  | finish =>
    show NoTokenInv a0 (stepFinish s)
    rw [stepFinish_noMarker s hm]
    exact ⟨ha, hr, hm, hres, hf, hc⟩
  | resume i =>
    show NoTokenInv a0 (resumeCaller s i)
    cases hci : s.callers.get? i with
    | none =>
      rw [resumeCaller_oob s i hci]
      exact ⟨ha, hr, hm, hres, hf, hc⟩
    | some c =>
      have hmem : c ∈ s.callers := List.get?_mem hci
      rcases hc c hmem with rfl | rfl
      · rw [resumeCaller_atStart_noToken s i hci hr]
        refine ⟨ha, hr, hm, hres, hf, ?_⟩
        intro c' hc'
        rcases List.mem_or_eq_of_mem_set hc' with hcm | rfl
        · exact hc c' hcm
        · exact Or.inr rfl
      · rw [resumeCaller_doneNoToken s i hci]
        exact ⟨ha, hr, hm, hres, hf, hc⟩

theorem noTokenInv_run (a0 : Option String) (s : RefreshSystem)
    (h : NoTokenInv a0 s) (sched : List SchedStep) : NoTokenInv a0 (run s sched) := by
  induction sched generalizing s with
  | nil => exact h
  | cons e rest ih => exact ih (step s e) (noTokenInv_step a0 s h e)

/-- C3, counterexample: a call to `refreshAccessToken` made while no refresh
credential is stored fails (the caller ends with the "No refresh token"
error), yet neither credential is cleared — the stored access credential
survives — and no authorization-failure outcome is propagated, refuting "on
every failure both credentials are cleared together and an authorization
failure is propagated to all waiters". -/
theorem refresh_failure_without_clearing :
    (run (initSystem 1 (some "a") none) [SchedStep.resume 0]).callers =
      [CallerState.doneNoToken] ∧
    (run (initSystem 1 (some "a") none) [SchedStep.resume 0]).access = some "a" ∧
    (run (initSystem 1 (some "a") none) [SchedStep.resume 0]).refresh = none ∧
    (run (initSystem 1 (some "a") none) [SchedStep.resume 0]).fetchCount = 0 := by
  decide

/-- C3 amended: for every interleaved execution of `refreshAccessToken`
callers that starts with a stored refresh credential: the credential pair read
back is never a mix — it is the initial pair, a refreshed access credential
together with the retained refresh credential, or both cleared; a refresh
cycle that resolves successfully wrote the new access credential with the
retained refresh credential and delivers that access credential to every one
of its waiters (all waiters of one cycle receive the same outcome); a cycle
that fails wrote the cleared pair and delivers the authorization failure to
every waiter.  A call made while no refresh credential is stored fails
immediately without issuing any request and without touching either
credential. -/
theorem refresh_credential_atomicity (n : Nat) (a0 : Option String) (rt0 : String)
    (sched : List SchedStep) (s : RefreshSystem)
    (hs : s = run (initSystem n a0 (some rt0)) sched)
    (n2 : Nat) (sched2 : List SchedStep) (s2 : RefreshSystem)
    (hs2 : s2 = run (initSystem n2 a0 none) sched2) :
    ((s.access = a0 ∧ s.refresh = some rt0) ∨
      (∃ t, s.access = some t ∧ s.refresh = some rt0) ∨
      (s.access = none ∧ s.refresh = none)) ∧
    (∀ c ∈ s.callers, ∀ pid t, c = .doneOk pid t →
      s.resolved.get? pid = some (.success t)) ∧
    (∀ c ∈ s.callers, ∀ pid, c = .doneErr pid → s.resolved.get? pid = some .failure) ∧
    (∀ i j pid t t', s.callers.get? i = some (.doneOk pid t) →
      s.callers.get? j = some (.doneOk pid t') → t = t') ∧
    (∀ i j pid t, s.callers.get? i = some (.doneOk pid t) →
      s.callers.get? j ≠ some (.doneErr pid)) ∧
    (∀ pid t, s.marker = some (pid, .finishing (.success t)) →
      s.access = some t ∧ s.refresh = some rt0) ∧
    (∀ pid, s.marker = some (pid, .finishing .failure) →
      s.access = none ∧ s.refresh = none) ∧
    (s2.access = a0 ∧ s2.refresh = none ∧ s2.fetchCount = 0 ∧
      ∀ c ∈ s2.callers, c = .atStart ∨ c = .doneNoToken) := by
  have hinv : SysInv a0 rt0 s := by
    rw [hs]
    exact sysInv_run a0 rt0 _ (sysInv_init n a0 rt0) sched
  have hnt : NoTokenInv a0 s2 := by
    rw [hs2]
    refine noTokenInv_run a0 _ ⟨rfl, rfl, rfl, rfl, rfl, ?_⟩ sched2
    intro c hc
    exact Or.inl (List.eq_of_mem_replicate hc)
  obtain ⟨hpair, -, -, -, hfinS, hfinF, hok, herr⟩ := hinv
  obtain ⟨ha2, hr2, -, -, hf2, hc2⟩ := hnt
  refine ⟨hpair, hok, herr, ?_, ?_, hfinS, hfinF, ha2, hr2, hf2, hc2⟩
  · intro i j pid t t' hi hj
    have h1 := hok _ (List.get?_mem hi) pid t rfl
    have h2 := hok _ (List.get?_mem hj) pid t' rfl
    rw [h1] at h2
    cases h2
    rfl
  · intro i j pid t hi hj
    have h1 := hok _ (List.get?_mem hi) pid t rfl
    have h2 := herr _ (List.get?_mem hj) pid rfl
    rw [h1] at h2
    cases h2

/-- Witness for the amended C3 at a concrete two-caller schedule that runs a
full successful refresh cycle (both callers are delivered the refreshed
credential) and at a concrete no-refresh-credential run. -/
theorem refresh_credential_atomicity_witness :
    (∀ c ∈ (run (initSystem 2 none (some "r0"))
        [SchedStep.resume 0, SchedStep.resume 1, SchedStep.response (some "t1"),
          SchedStep.parseBody, SchedStep.finish, SchedStep.resume 0,
          SchedStep.resume 1]).callers,
      ∀ pid t, c = .doneOk pid t →
        (run (initSystem 2 none (some "r0"))
          [SchedStep.resume 0, SchedStep.resume 1, SchedStep.response (some "t1"),
            SchedStep.parseBody, SchedStep.finish, SchedStep.resume 0,
            SchedStep.resume 1]).resolved.get? pid = some (.success t)) ∧
    (run (initSystem 1 (some "a") none) [SchedStep.resume 0]).access = some "a" :=
  ⟨(refresh_credential_atomicity 2 none "r0"
      [SchedStep.resume 0, SchedStep.resume 1, SchedStep.response (some "t1"),
        SchedStep.parseBody, SchedStep.finish, SchedStep.resume 0,
        SchedStep.resume 1] _ rfl 1 [SchedStep.resume 0] _ rfl).2.1,
    ((refresh_credential_atomicity 1 (some "a") "r0" [] _ rfl
      1 [SchedStep.resume 0] _ rfl).2.2.2.2.2.2.2.1)⟩

theorem callers_get?_set (l : List CallerState) (j i : Nat) (a : CallerState) :
    (l.set j a).get? i =
      if j = i then (l.get? i).map (fun _ => a) else l.get? i := by
  rw [List.get?_eq_getElem?, List.get?_eq_getElem?]
  by_cases h : j = i
  · subst h
    rw [if_pos rfl]
    exact List.getElem?_set_self'
  · rw [if_neg h, List.getElem?_set_ne h]

theorem set_callers_cond (l : List CallerState) (j : Nat) (a : CallerState)
    (P : CallerState → Prop) (hl : ∀ i c, l.get? i = some c → P c) (ha : P a) :
    ∀ i c, (l.set j a).get? i = some c → P c := by
  intro i c hci
  rw [callers_get?_set] at hci
  by_cases hij : j = i
  · rw [if_pos hij] at hci
    cases hlc : l.get? i with
    | none => rw [hlc] at hci; cases hci
    | some c0 =>
      rw [hlc] at hci
      cases hci
      exact ha
  · rw [if_neg hij] at hci
    exact hl i c hci

theorem stepResponse_callers (s : RefreshSystem) (r : Option String) :
    (stepResponse s r).callers = s.callers := by
  unfold stepResponse
  rcases hm : s.marker with _ | ⟨pid, ph⟩
  · rfl
  · cases ph <;> rfl

theorem stepParse_callers (s : RefreshSystem) :
    (stepParse s).callers = s.callers := by
  unfold stepParse
  rcases hm : s.marker with _ | ⟨pid, ph⟩
  · rfl
  · cases ph with
    | awaitingResponse rt => rfl
    | finishing o => rfl
    | awaitingBody rt r => cases r <;> rfl

theorem stepFinish_callers (s : RefreshSystem) :
    (stepFinish s).callers = s.callers := by
  unfold stepFinish
  rcases hm : s.marker with _ | ⟨pid, ph⟩
  · rfl
  · cases ph <;> rfl

theorem resumeCaller_callers_shape (s : RefreshSystem) (i : Nat) :
    (resumeCaller s i).callers = s.callers ∨
    ∃ a, a ≠ CallerState.atStart ∧ (resumeCaller s i).callers = s.callers.set i a := by
  cases hci : s.callers.get? i with
  | none =>
    rw [resumeCaller_oob s i hci]
    exact Or.inl rfl
  | some c =>
    cases c with
    | atStart =>
      cases hrf : s.refresh with
      | none =>
        rw [resumeCaller_atStart_noToken s i hci hrf]
        exact Or.inr ⟨.doneNoToken, ⟨fun h => CallerState.noConfusion h, rfl⟩⟩
      | some rt =>
        cases hm : s.marker with
        | some pc =>
          rw [resumeCaller_atStart_join s i rt pc.1 pc.2 hci hrf (by rw [hm])]
          exact Or.inr ⟨.waiting pc.1 false, ⟨fun h => CallerState.noConfusion h, rfl⟩⟩
        | none =>
          rw [resumeCaller_atStart_create s i rt hci hrf hm]
          exact Or.inr ⟨.waiting s.resolved.length true,
            ⟨fun h => CallerState.noConfusion h, rfl⟩⟩
    | waiting pid cr =>
      cases hro : s.resolved.get? pid with
      | none =>
        rw [resumeCaller_waiting_pending s i pid cr hci hro]
        exact Or.inl rfl
      | some o =>
        rw [resumeCaller_waiting_settled s i pid cr o hci hro]
        refine Or.inr ⟨settledCaller pid o, ?_, by cases cr <;> rfl⟩
        cases o <;> intro h <;> simp [settledCaller] at h
    | doneOk pid t0 =>
      rw [resumeCaller_doneOk s i pid t0 hci]
      exact Or.inl rfl
    | doneErr pid =>
      rw [resumeCaller_doneErr s i pid hci]
      exact Or.inl rfl
    | doneNoToken =>
      rw [resumeCaller_doneNoToken s i hci]
      exact Or.inl rfl

theorem step_callers_shape (s : RefreshSystem) (e : SchedStep) :
    (step s e).callers = s.callers ∨
    ∃ j a, a ≠ CallerState.atStart ∧ (step s e).callers = s.callers.set j a := by
  cases e with
  | resume i =>
    rcases resumeCaller_callers_shape s i with h | ⟨a, ha, h⟩
    · exact Or.inl h
    · exact Or.inr ⟨i, a, ha, h⟩
  | response r => exact Or.inl (stepResponse_callers s r)
  | parseBody => exact Or.inl (stepParse_callers s)
  | finish => exact Or.inl (stepFinish_callers s)

theorem step_not_atStart_mono (s : RefreshSystem) (e : SchedStep) (i : Nat)
    (h : s.callers.get? i ≠ some CallerState.atStart) :
    (step s e).callers.get? i ≠ some CallerState.atStart := by
  rcases step_callers_shape s e with hc | ⟨j, a, ha, hc⟩
  · rw [hc]
    exact h
  · rw [hc, callers_get?_set]
    by_cases hij : j = i
    · rw [if_pos hij]
      cases hlc : s.callers.get? i with
      | none => intro hx; cases hx
      | some c0 =>
        intro hx
        cases hx
        exact ha rfl
    · rw [if_neg hij]
      exact h

theorem resume_clears_atStart (s : RefreshSystem) (i : Nat) :
    (step s (.resume i)).callers.get? i ≠ some CallerState.atStart := by
  show (resumeCaller s i).callers.get? i ≠ some CallerState.atStart
  cases hci : s.callers.get? i with
  | none =>
    rw [resumeCaller_oob s i hci, hci]
    intro hx
    cases hx
  | some c =>
    have hlen : i < s.callers.length := by
      obtain ⟨hlt, -⟩ := List.get?_eq_some.mp hci
      exact hlt
    have hset : ∀ a : CallerState, (s.callers.set i a).get? i = some a := by
      intro a
      rw [callers_get?_set, if_pos rfl, hci]
      rfl
    cases c with
    | atStart =>
      cases hrf : s.refresh with
      | none =>
        rw [resumeCaller_atStart_noToken s i hci hrf, hset]
        intro hx
        cases hx
      | some rt =>
        cases hm : s.marker with
        | some pc =>
          rw [resumeCaller_atStart_join s i rt pc.1 pc.2 hci hrf (by rw [hm]), hset]
          intro hx
          cases hx
        | none =>
          rw [resumeCaller_atStart_create s i rt hci hrf hm, hset]
          intro hx
          cases hx
    | waiting pid cr =>
      cases hro : s.resolved.get? pid with
      | none =>
        rw [resumeCaller_waiting_pending s i pid cr hci hro, hci]
        intro hx
        cases hx
      | some o =>
        rw [resumeCaller_waiting_settled s i pid cr o hci hro]
        have : ((if cr then
            { s with callers := s.callers.set i (settledCaller pid o), marker := none }
          else
            { s with callers := s.callers.set i (settledCaller pid o) }) :
            RefreshSystem).callers = s.callers.set i (settledCaller pid o) := by
          cases cr <;> rfl
        rw [this, hset]
        cases o <;> intro hx <;> simp [settledCaller] at hx
    | doneOk pid t0 =>
      rw [resumeCaller_doneOk s i pid t0 hci, hci]
      intro hx
      cases hx
    | doneErr pid =>
      rw [resumeCaller_doneErr s i pid hci, hci]
      intro hx
      cases hx
    | doneNoToken =>
      rw [resumeCaller_doneNoToken s i hci, hci]
      intro hx
      cases hx

theorem resumed_tracking (sched : List SchedStep) (s : RefreshSystem) (i : Nat)
    (h : SchedStep.resume i ∈ sched ∨ s.callers.get? i ≠ some CallerState.atStart) :
    (run s sched).callers.get? i ≠ some CallerState.atStart := by
  induction sched generalizing s with
  | nil =>
    rcases h with h | h
    · cases h
    · exact h
  | cons e rest ih =>
    show (run (step s e) rest).callers.get? i ≠ some CallerState.atStart
    by_cases hei : e = SchedStep.resume i
    · subst hei
      exact ih (step s (.resume i)) (Or.inr (resume_clears_atStart s i))
    · rcases h with h | h
      · rcases List.mem_cons.mp h with rfl | h
        · exact absurd rfl hei
        · exact ih (step s e) (Or.inl h)
      · exact ih (step s e) (Or.inr (step_not_atStart_mono s e i h))

/-- Schedule discipline for the happy path: every network answer to the
refresh endpoint is a 2xx carrying access token `t`. -/
def successResponsesOnly (t : String) : SchedStep → Bool
  | .response r => r == some t
  | _ => true

/-- State of the system while the single refresh cycle of the scenario is in
flight and callers are joining it: one fetch has been issued at most, cycle 0
is unsettled, and every caller is still at the start or waits on cycle 0. -/
def JoinPhase (n : Nat) (rt0 t : String) (s : RefreshSystem) : Prop :=
  s.refresh = some rt0 ∧
  s.resolved = [] ∧
  s.callers.length = n ∧
  ((s.marker = none ∧ s.fetchCount = 0 ∧
      ∀ i c, s.callers.get? i = some c → c = .atStart) ∨
    (s.fetchCount = 1 ∧
      (s.marker = some (0, .awaitingResponse rt0) ∨
        s.marker = some (0, .awaitingBody rt0 (some t)) ∨
        (s.marker = some (0, .finishing (.success t)) ∧ s.access = some t)) ∧
      ∀ i c, s.callers.get? i = some c → c = .atStart ∨ ∃ cr, c = .waiting 0 cr))

theorem joinPhase_step (n : Nat) (rt0 t : String) (s : RefreshSystem)
    (e : SchedStep) (h : JoinPhase n rt0 t s) (hfin : e ≠ SchedStep.finish)
    (hr : successResponsesOnly t e = true) : JoinPhase n rt0 t (step s e) := by
  obtain ⟨hrf, hres, hlen, hcase⟩ := h
  cases e with
  | finish => exact absurd rfl hfin
  | response r =>
    have hrt : r = some t := eq_of_beq hr
    subst hrt
    show JoinPhase n rt0 t (stepResponse s (some t))
    rcases hcase with ⟨hm, hf, hc⟩ | ⟨hf, hm, hc⟩
    · rw [stepResponse_noMarker s _ hm]
      exact ⟨hrf, hres, hlen, Or.inl ⟨hm, hf, hc⟩⟩
    · rcases hm with hm | hm | ⟨hm, hacc⟩
      · rw [stepResponse_resp s _ 0 rt0 hm]
        exact ⟨hrf, hres, hlen, Or.inr ⟨hf, Or.inr (Or.inl rfl), hc⟩⟩
      · rw [stepResponse_body s _ 0 rt0 (some t) hm]
        exact ⟨hrf, hres, hlen, Or.inr ⟨hf, Or.inr (Or.inl hm), hc⟩⟩
      · rw [stepResponse_finishing s _ 0 _ hm]
        exact ⟨hrf, hres, hlen, Or.inr ⟨hf, Or.inr (Or.inr ⟨hm, hacc⟩), hc⟩⟩
  | parseBody =>
    show JoinPhase n rt0 t (stepParse s)
    rcases hcase with ⟨hm, hf, hc⟩ | ⟨hf, hm, hc⟩
    · rw [stepParse_noMarker s hm]
      exact ⟨hrf, hres, hlen, Or.inl ⟨hm, hf, hc⟩⟩
    · rcases hm with hm | hm | ⟨hm, hacc⟩
      · rw [stepParse_resp s 0 rt0 hm]
        exact ⟨hrf, hres, hlen, Or.inr ⟨hf, Or.inl hm, hc⟩⟩
      · rw [stepParse_body_some s 0 rt0 t hm]
        exact ⟨rfl, hres, hlen, Or.inr ⟨hf, Or.inr (Or.inr ⟨rfl, rfl⟩), hc⟩⟩
      · rw [stepParse_finishing s 0 _ hm]
        exact ⟨hrf, hres, hlen, Or.inr ⟨hf, Or.inr (Or.inr ⟨hm, hacc⟩), hc⟩⟩
  | resume i =>
    show JoinPhase n rt0 t (resumeCaller s i)
    cases hci : s.callers.get? i with
    | none =>
      rw [resumeCaller_oob s i hci]
      exact ⟨hrf, hres, hlen, hcase⟩
    | some c =>
      rcases hcase with ⟨hm, hf, hc⟩ | ⟨hf, hm, hc⟩
      · have hcc := hc i c hci
        subst hcc
        rw [resumeCaller_atStart_create s i rt0 hci hrf hm]
        have hres0 : s.resolved.length = 0 := by rw [hres]; rfl
        refine ⟨hrf, hres, by rw [List.length_set]; exact hlen,
          Or.inr ⟨by show s.fetchCount + 1 = 1; rw [hf], Or.inl (by rw [hres0]), ?_⟩⟩
        rw [hres0]
        exact set_callers_cond s.callers i (.waiting 0 true) _
          (fun i' c' hci' => Or.inl (hc i' c' hci')) (Or.inr ⟨true, rfl⟩)
      · have hcc := hc i c hci
        rcases hcc with rfl | ⟨cr, rfl⟩
        · have hjoin : ∀ pid ph, s.marker = some (pid, ph) →
              JoinPhase n rt0 t (resumeCaller s i) → True := fun _ _ _ _ => trivial
          rcases hm with hm | hm | ⟨hm, hacc⟩
          · rw [resumeCaller_atStart_join s i rt0 0 _ hci hrf hm]
            exact ⟨hrf, hres, by rw [List.length_set]; exact hlen,
              Or.inr ⟨hf, Or.inl hm, set_callers_cond s.callers i _ _ hc
                (Or.inr ⟨false, rfl⟩)⟩⟩
          · rw [resumeCaller_atStart_join s i rt0 0 _ hci hrf hm]
            exact ⟨hrf, hres, by rw [List.length_set]; exact hlen,
              Or.inr ⟨hf, Or.inr (Or.inl hm), set_callers_cond s.callers i _ _ hc
                (Or.inr ⟨false, rfl⟩)⟩⟩
          · rw [resumeCaller_atStart_join s i rt0 0 _ hci hrf hm]
            exact ⟨hrf, hres, by rw [List.length_set]; exact hlen,
              Or.inr ⟨hf, Or.inr (Or.inr ⟨hm, hacc⟩), set_callers_cond s.callers i _ _ hc
                (Or.inr ⟨false, rfl⟩)⟩⟩
        · have hpend : s.resolved.get? 0 = none := by rw [hres]; rfl
          rw [resumeCaller_waiting_pending s i 0 cr hci hpend]
          exact ⟨hrf, hres, hlen, Or.inr ⟨hf, hm, hc⟩⟩

theorem joinPhase_run (n : Nat) (rt0 t : String) (s : RefreshSystem)
    (sched : List SchedStep) (h : JoinPhase n rt0 t s)
    (hfin : SchedStep.finish ∉ sched)
    (hresp : sched.all (successResponsesOnly t) = true) :
    JoinPhase n rt0 t (run s sched) := by
  induction sched generalizing s with
  | nil => exact h
  | cons e rest ih =>
    rw [List.all_cons, Bool.and_eq_true] at hresp
    exact ih (step s e)
      (joinPhase_step n rt0 t s e h (fun he => hfin (he ▸ List.mem_cons_self e rest))
        hresp.1)
      (fun hm => hfin (List.mem_cons_of_mem e hm)) hresp.2

theorem joinPhase_init (n : Nat) (a0 : Option String) (rt0 t : String) :
    JoinPhase n rt0 t (initSystem n a0 (some rt0)) := by
  refine ⟨rfl, rfl, List.length_replicate n _, Or.inl ⟨rfl, rfl, ?_⟩⟩
  intro i c hci
  exact List.eq_of_mem_replicate (List.get?_mem hci)

theorem joinPhase_end (n : Nat) (rt0 t : String) (s : RefreshSystem) (hn : 0 < n)
    (h : JoinPhase n rt0 t s)
    (hns : ∀ i, i < n → s.callers.get? i ≠ some CallerState.atStart) :
    s.fetchCount = 1 ∧ s.refresh = some rt0 ∧ s.resolved = [] ∧
    s.callers.length = n ∧
    (s.marker = some (0, .awaitingResponse rt0) ∨
      s.marker = some (0, .awaitingBody rt0 (some t)) ∨
      (s.marker = some (0, .finishing (.success t)) ∧ s.access = some t)) ∧
    (∀ i c, s.callers.get? i = some c → ∃ cr, c = .waiting 0 cr) := by
  obtain ⟨hrf, hres, hlen, hcase⟩ := h
  rcases hcase with ⟨hm, hf, hc⟩ | ⟨hf, hm, hc⟩
  · exfalso
    have h0 : 0 < s.callers.length := by rw [hlen]; exact hn
    obtain ⟨c0, hc0⟩ : ∃ c0, s.callers.get? 0 = some c0 := by
      cases hg : s.callers.get? 0 with
      | none =>
        rw [List.get?_eq_none] at hg
        omega
      | some c0 => exact ⟨c0, rfl⟩
    exact hns 0 hn (by rw [hc0, hc 0 c0 hc0])
  · refine ⟨hf, hrf, hres, hlen, hm, ?_⟩
    intro i c hci
    rcases hc i c hci with rfl | hw
    · exfalso
      have hi : i < n := by
        obtain ⟨hlt, -⟩ := List.get?_eq_some.mp hci
        rw [hlen] at hlt
        exact hlt
      exact hns i hi (by rw [hci])
    · exact hw

/-- State of the system after the single refresh cycle settled successfully
with token `t`: the marker is cleared, the refreshed pair is stored, and every
caller either still awaits the settled promise or has already been delivered
`t`. -/
def DrainPhase (n : Nat) (rt0 t : String) (s : RefreshSystem) : Prop :=
  s.refresh = some rt0 ∧ s.access = some t ∧ s.marker = none ∧
  s.resolved = [.success t] ∧ s.fetchCount = 1 ∧ s.callers.length = n ∧
  ∀ i c, s.callers.get? i = some c → (∃ cr, c = .waiting 0 cr) ∨ c = .doneOk 0 t

theorem cycle_settles (n : Nat) (rt0 t : String) (s : RefreshSystem)
    (hf : s.fetchCount = 1) (hrf : s.refresh = some rt0) (hres : s.resolved = [])
    (hlen : s.callers.length = n)
    (hm : s.marker = some (0, .awaitingResponse rt0) ∨
      s.marker = some (0, .awaitingBody rt0 (some t)) ∨
      (s.marker = some (0, .finishing (.success t)) ∧ s.access = some t))
    (hc : ∀ i c, s.callers.get? i = some c → ∃ cr, c = .waiting 0 cr) :
    DrainPhase n rt0 t
      (stepFinish (stepParse (stepResponse s (some t)))) := by
  rcases hm with hm | hm | ⟨hm, hacc⟩
  · rw [stepResponse_resp s (some t) 0 rt0 hm,
      stepParse_body_some _ 0 rt0 t rfl,
      stepFinish_finishing _ 0 (.success t) rfl]
    refine ⟨rfl, rfl, rfl, ?_, ?_, ?_, ?_⟩
    · show s.resolved ++ [RefreshOutcome.success t] = [RefreshOutcome.success t]
      rw [hres]
      rfl
    · exact hf
    · exact hlen
    · exact fun i c hci => Or.inl (hc i c hci)
  · rw [stepResponse_body s (some t) 0 rt0 (some t) hm,
      stepParse_body_some _ 0 rt0 t hm,
      stepFinish_finishing _ 0 (.success t) rfl]
    refine ⟨rfl, rfl, rfl, ?_, ?_, ?_, ?_⟩
    · show s.resolved ++ [RefreshOutcome.success t] = [RefreshOutcome.success t]
      rw [hres]
      rfl
    · exact hf
    · exact hlen
    · exact fun i c hci => Or.inl (hc i c hci)
  · rw [stepResponse_finishing s (some t) 0 _ hm,
      stepParse_finishing s 0 _ hm,
      stepFinish_finishing s 0 (.success t) hm]
    refine ⟨?_, ?_, rfl, ?_, ?_, ?_, ?_⟩
    · exact hrf
    · exact hacc
    · show s.resolved ++ [RefreshOutcome.success t] = [RefreshOutcome.success t]
      rw [hres]
      rfl
    · exact hf
    · exact hlen
    · exact fun i c hci => Or.inl (hc i c hci)

theorem drainPhase_step (n : Nat) (rt0 t : String) (s : RefreshSystem)
    (e : SchedStep) (h : DrainPhase n rt0 t s) : DrainPhase n rt0 t (step s e) := by
  obtain ⟨hrf, hacc, hm, hres, hf, hlen, hc⟩ := h
  cases e with
  | response r =>
    show DrainPhase n rt0 t (stepResponse s r)
    rw [stepResponse_noMarker s r hm]
    exact ⟨hrf, hacc, hm, hres, hf, hlen, hc⟩
  | parseBody =>
    show DrainPhase n rt0 t (stepParse s)
    rw [stepParse_noMarker s hm]
    exact ⟨hrf, hacc, hm, hres, hf, hlen, hc⟩
  | finish =>
    show DrainPhase n rt0 t (stepFinish s)
    rw [stepFinish_noMarker s hm]
    exact ⟨hrf, hacc, hm, hres, hf, hlen, hc⟩
  | resume i =>
    show DrainPhase n rt0 t (resumeCaller s i)
    cases hci : s.callers.get? i with
    | none =>
      rw [resumeCaller_oob s i hci]
      exact ⟨hrf, hacc, hm, hres, hf, hlen, hc⟩
    | some c =>
      rcases hc i c hci with ⟨cr, rfl⟩ | rfl
      · have hro : s.resolved.get? 0 = some (.success t) := by rw [hres]; rfl
        rw [resumeCaller_waiting_settled s i 0 cr (.success t) hci hro]
        have hcond := set_callers_cond s.callers i (settledCaller 0 (.success t)) _
          hc (Or.inr (by simp [settledCaller]))
        cases cr with
        | true =>
          rw [if_pos rfl]
          refine ⟨hrf, hacc, rfl, hres, hf, ?_, hcond⟩
          show (s.callers.set i (settledCaller 0 (.success t))).length = n
          rw [List.length_set]
          exact hlen
        | false =>
          rw [if_neg (by simp)]
          refine ⟨hrf, hacc, hm, hres, hf, ?_, hcond⟩
          show (s.callers.set i (settledCaller 0 (.success t))).length = n
          rw [List.length_set]
          exact hlen
      · rw [resumeCaller_doneOk s i 0 t hci]
        exact ⟨hrf, hacc, hm, hres, hf, hlen, hc⟩

theorem drainPhase_run (n : Nat) (rt0 t : String) (s : RefreshSystem)
    (sched : List SchedStep) (h : DrainPhase n rt0 t s) :
    DrainPhase n rt0 t (run s sched) := by
  induction sched generalizing s with
  | nil => exact h
  | cons e rest ih => exact ih (step s e) (drainPhase_step n rt0 t s e h)

/-- Within the drain phase, a caller that has been resumed is settled with the
cycle's token. -/
theorem drain_resume_settles (n : Nat) (rt0 t : String) (s : RefreshSystem)
    (h : DrainPhase n rt0 t s) (i : Nat) :
    (step s (.resume i)).callers.get? i = none ∨
    (step s (.resume i)).callers.get? i = some (.doneOk 0 t) := by
  obtain ⟨hrf, hacc, hm, hres, hf, hlen, hc⟩ := h
  show (resumeCaller s i).callers.get? i = none ∨
    (resumeCaller s i).callers.get? i = some (.doneOk 0 t)
  cases hci : s.callers.get? i with
  | none =>
    rw [resumeCaller_oob s i hci, hci]
    exact Or.inl rfl
  | some c =>
    have hset : ∀ a : CallerState, (s.callers.set i a).get? i = some a := by
      intro a
      rw [callers_get?_set, if_pos rfl, hci]
      rfl
    rcases hc i c hci with ⟨cr, rfl⟩ | rfl
    · have hro : s.resolved.get? 0 = some (.success t) := by rw [hres]; rfl
      rw [resumeCaller_waiting_settled s i 0 cr (.success t) hci hro]
      cases cr with
      | true =>
        rw [if_pos rfl]
        show (s.callers.set i (settledCaller 0 (.success t))).get? i = none ∨
          (s.callers.set i (settledCaller 0 (.success t))).get? i = some (.doneOk 0 t)
        rw [hset]
        exact Or.inr rfl
      | false =>
        rw [if_neg (by simp)]
        show (s.callers.set i (settledCaller 0 (.success t))).get? i = none ∨
          (s.callers.set i (settledCaller 0 (.success t))).get? i = some (.doneOk 0 t)
        rw [hset]
        exact Or.inr rfl
    · rw [resumeCaller_doneOk s i 0 t hci, hci]
      exact Or.inr rfl

theorem drain_settled_mono (n : Nat) (rt0 t : String) (s : RefreshSystem)
    (e : SchedStep) (h : DrainPhase n rt0 t s) (i : Nat)
    (hq : s.callers.get? i = none ∨ s.callers.get? i = some (.doneOk 0 t)) :
    (step s e).callers.get? i = none ∨
    (step s e).callers.get? i = some (.doneOk 0 t) := by
  cases e with
  | response r =>
    show (stepResponse s r).callers.get? i = none ∨
      (stepResponse s r).callers.get? i = some (.doneOk 0 t)
    rw [stepResponse_callers]
    exact hq
  | parseBody =>
    show (stepParse s).callers.get? i = none ∨
      (stepParse s).callers.get? i = some (.doneOk 0 t)
    rw [stepParse_callers]
    exact hq
  | finish =>
    show (stepFinish s).callers.get? i = none ∨
      (stepFinish s).callers.get? i = some (.doneOk 0 t)
    rw [stepFinish_callers]
    exact hq
  | resume j =>
    by_cases hij : j = i
    · subst hij
      exact drain_resume_settles n rt0 t s h j
    · show (resumeCaller s j).callers.get? i = none ∨
        (resumeCaller s j).callers.get? i = some (.doneOk 0 t)
      rcases resumeCaller_callers_shape s j with hcs | ⟨a, -, hcs⟩
      · rw [hcs]
        exact hq
      · rw [hcs, callers_get?_set, if_neg hij]
        exact hq

theorem drain_tracking (n : Nat) (rt0 t : String) (sched : List SchedStep)
    (s : RefreshSystem) (h : DrainPhase n rt0 t s) (i : Nat)
    (hin : SchedStep.resume i ∈ sched ∨
      s.callers.get? i = none ∨ s.callers.get? i = some (.doneOk 0 t)) :
    (run s sched).callers.get? i = none ∨
    (run s sched).callers.get? i = some (.doneOk 0 t) := by
  induction sched generalizing s with
  | nil =>
    rcases hin with hin | hin
    · cases hin
    · exact hin
  | cons e rest ih =>
    show (run (step s e) rest).callers.get? i = none ∨ _
    have hnext : DrainPhase n rt0 t (step s e) := drainPhase_step n rt0 t s e h
    by_cases hei : e = SchedStep.resume i
    · subst hei
      exact ih (step s (.resume i)) hnext (Or.inr (drain_resume_settles n rt0 t s h i))
    · rcases hin with hin | hin
      · rcases List.mem_cons.mp hin with rfl | hin
        · exact absurd rfl hei
        · exact ih (step s e) hnext (Or.inl hin)
      · exact ih (step s e) hnext (Or.inr (drain_settled_mono n rt0 t s e h i hin))

/-- C1. Single-flight refresh: consider `n` concurrent callers of
`refreshAccessToken` starting while no refresh is in flight and with a stored
refresh credential, under any schedule that (i) resumes every caller past its
`getTokens` suspension before the refresh settles (segment `A`, which contains
no settle step but is otherwise arbitrary), (ii) settles the one in-flight
cycle successfully with access token `t`, and (iii) afterwards resumes every
caller again (segment `C`, otherwise arbitrary).  Then exactly one network
refresh request is issued in the whole run, every caller resolves to the same
new access credential `t` (callers arriving while the refresh was in flight
joined its pending promise), along every prefix of the schedule the in-flight
marker always belongs to the still-unsettled cycle — i.e. the marker is
cleared before any waiter can observe the settled result — and at the end the
marker is clear, so a subsequent fresh call starts a new refresh cycle
(issuing one more network request). -/
theorem singleFlight_refresh (n : Nat) (a0 : Option String) (rt0 t : String)
    (A C : List SchedStep) (hn : 0 < n)
    (hjoinA : ∀ i, i < n → SchedStep.resume i ∈ A)
    (hnofin : SchedStep.finish ∉ A)
    (hresp : (A ++ (SchedStep.response (some t) :: SchedStep.parseBody ::
      SchedStep.finish :: C)).all (successResponsesOnly t) = true)
    (hjoinC : ∀ i, i < n → SchedStep.resume i ∈ C)
    (s : RefreshSystem)
    (hs : s = run (initSystem n a0 (some rt0))
      (A ++ (SchedStep.response (some t) :: SchedStep.parseBody ::
        SchedStep.finish :: C))) :
    s.fetchCount = 1 ∧
    (∀ i c, s.callers.get? i = some c → c = .doneOk 0 t) ∧
    s.access = some t ∧ s.refresh = some rt0 ∧ s.marker = none ∧
    (∀ pre : List SchedStep, ∀ pid ph,
      (run (initSystem n a0 (some rt0)) pre).marker = some (pid, ph) →
      pid = (run (initSystem n a0 (some rt0)) pre).resolved.length) ∧
    (resumeCaller { s with callers := s.callers ++ [.atStart] }
      s.callers.length).fetchCount = s.fetchCount + 1 := by
  have hrespA : A.all (successResponsesOnly t) = true := by
    rw [List.all_append, Bool.and_eq_true] at hresp
    exact hresp.1
  have hs1 : run (initSystem n a0 (some rt0))
      (A ++ (SchedStep.response (some t) :: SchedStep.parseBody ::
        SchedStep.finish :: C)) =
      run (stepFinish (stepParse (stepResponse
        (run (initSystem n a0 (some rt0)) A) (some t)))) C := by
    unfold run
    rw [List.foldl_append]
    rfl
  set s1 := run (initSystem n a0 (some rt0)) A with hs1def
  have hjoin : JoinPhase n rt0 t s1 :=
    joinPhase_run n rt0 t _ A (joinPhase_init n a0 rt0 t) hnofin hrespA
  have hns : ∀ i, i < n → s1.callers.get? i ≠ some CallerState.atStart := by
    intro i hi
    exact resumed_tracking A _ i (Or.inl (hjoinA i hi))
  obtain ⟨hf1, hrf1, hres1, hlen1, hm1, hc1⟩ := joinPhase_end n rt0 t s1 hn hjoin hns
  have hdrain0 : DrainPhase n rt0 t
      (stepFinish (stepParse (stepResponse s1 (some t)))) :=
    cycle_settles n rt0 t s1 hf1 hrf1 hres1 hlen1 hm1 hc1
  have hdrain : DrainPhase n rt0 t s := by
    rw [hs, hs1]
    exact drainPhase_run n rt0 t _ C hdrain0
  obtain ⟨hrfF, haccF, hmF, hresF, hfF, hlenF, hcF⟩ := hdrain
  have hsettled : ∀ i, i < n → s.callers.get? i = none ∨
      s.callers.get? i = some (.doneOk 0 t) := by
    intro i hi
    rw [hs, hs1]
    exact drain_tracking n rt0 t C _ hdrain0 i (Or.inl (hjoinC i hi))
  refine ⟨hfF, ?_, haccF, hrfF, hmF, ?_, ?_⟩
  · intro i c hci
    have hi : i < n := by
      obtain ⟨hlt, -⟩ := List.get?_eq_some.mp hci
      rw [hlenF] at hlt
      exact hlt
    rcases hsettled i hi with hnone | hdone
    · rw [hci] at hnone
      cases hnone
    · rw [hci] at hdone
      cases hdone
      rfl
  · intro pre pid ph hmk
    obtain ⟨-, -, -, hpid, -⟩ :=
      sysInv_run a0 rt0 _ (sysInv_init n a0 rt0) pre
    exact hpid pid ph hmk
  · have hext : ({ s with callers := s.callers ++ [CallerState.atStart] } :
        RefreshSystem).callers.get? s.callers.length = some CallerState.atStart :=
      List.get?_concat_length s.callers CallerState.atStart
    rw [resumeCaller_atStart_create _ _ rt0 hext hrfF hmF]

/-- Witness for C1: two concurrent callers, a schedule in which the second
caller checks the in-flight marker while the refresh request is pending, the
refresh settles with token `"t1"`, and both callers then resume. -/
theorem singleFlight_refresh_witness :
    (0 < 2 ∧ SchedStep.finish ∉ [SchedStep.resume 0, SchedStep.resume 1]) ∧
    (run (initSystem 2 none (some "r0"))
        ([SchedStep.resume 0, SchedStep.resume 1] ++
          (SchedStep.response (some "t1") :: SchedStep.parseBody ::
            SchedStep.finish :: [SchedStep.resume 0, SchedStep.resume 1]))).fetchCount
      = 1 ∧
    (∀ i c, (run (initSystem 2 none (some "r0"))
        ([SchedStep.resume 0, SchedStep.resume 1] ++
          (SchedStep.response (some "t1") :: SchedStep.parseBody ::
            SchedStep.finish :: [SchedStep.resume 0, SchedStep.resume 1]))).callers.get? i
          = some c → c = .doneOk 0 "t1") ∧
    (run (initSystem 2 none (some "r0"))
        ([SchedStep.resume 0, SchedStep.resume 1] ++
          (SchedStep.response (some "t1") :: SchedStep.parseBody ::
            SchedStep.finish :: [SchedStep.resume 0, SchedStep.resume 1]))).access
      = some "t1" ∧
    (run (initSystem 2 none (some "r0"))
        ([SchedStep.resume 0, SchedStep.resume 1] ++
          (SchedStep.response (some "t1") :: SchedStep.parseBody ::
            SchedStep.finish :: [SchedStep.resume 0, SchedStep.resume 1]))).marker
      = none := by
  have h := singleFlight_refresh 2 none "r0" "t1"
    [SchedStep.resume 0, SchedStep.resume 1] [SchedStep.resume 0, SchedStep.resume 1]
    (by decide) (by decide) (by decide) (by decide) (by decide) _ rfl
  exact ⟨⟨by decide, by decide⟩, h.1, h.2.1, h.2.2.1, h.2.2.2.2.1⟩

end SmartAiBuddy
